import Mathlib

/-!
Verification of `src/internal/hnsw/csrc/vector_search.c` (HNSW vector index).

Shallow embedding conventions:
* C `float` values are modelled as exact rationals (`ℚ`); `sqrtf` is modelled
  by `ratSqrt` below (a monotone, computable square-root approximation that
  is exact on perfect squares).  Overflow and rounding of IEEE floats are
  not modelled; the algorithms under verification only compare distances.
* C `int` values are modelled as `ℤ` (no claim under scrutiny depends on
  32-bit wrap-around).
* Pointers that may be NULL are modelled with `Option`; `malloc` is assumed
  to succeed (out-of-memory paths are not modelled).
* Arrays are modelled as `List`s.  Reads through `List.getD` return a default
  on out-of-range indices, which models the C undefined behaviour
  deterministically; all verified properties only exercise in-range reads.
* `rand()` in `determine_random_layer` is modelled by an oracle
  `levels : ℕ → ℕ` giving the sampled top layer of each node.
-/

/-- `FLT_MAX` from `<float.h>`: the largest finite single-precision float,
`(2 - 2⁻²³)·2¹²⁷`, as an exact rational. -/
def FLT_MAX : ℚ := (2 - (1 : ℚ) / 2 ^ 23) * 2 ^ 127

/-- Floor square root by bisection on `[lo, hi)`, with structural fuel so
that concrete instances evaluate inside the kernel.  The fuel passed by
`natSqrt` always suffices on its domain of interest: the interval halves at
every step. -/
def sqrtGo (n : ℕ) : ℕ → ℕ → ℕ → ℕ
  | 0, lo, _ => lo
  | fuel + 1, lo, hi =>
    let mid := (lo + hi) / 2
    if mid ≤ lo then lo
    else if mid * mid ≤ n then sqrtGo n fuel mid hi
    else sqrtGo n fuel lo mid

/-- Floor square root of a natural number, exact for every `n < 2 ^ 318`
(320 bisection steps collapse the interval `[0, n + 1]`); this covers the
square of every finite single-precision float, the only inputs `sqrtf`
receives in the C code. -/
def natSqrt (n : ℕ) : ℕ := sqrtGo n 320 0 (n + 1)

/-- The model of `sqrtf`: a monotone, computable square-root approximation
on exact rationals (floor square roots of numerator and denominator), exact
on perfect squares.  No verified property depends on its rounding. -/
def ratSqrt (q : ℚ) : ℚ := mkRat (natSqrt q.num.toNat) (natSqrt q.den)

/-- `Vector` from `vector_search.h`: a float buffer and its length. -/
structure Vector where
  data : List ℚ
  len : ℤ
  deriving Repr, DecidableEq

/-- `calculate_euclidean_distance` (vector_search.c:14-25).  Unequal lengths
return the `FLT_MAX` sentinel; otherwise the square root of the sum of
squared coordinate differences.  A negative `len` makes the C loop run zero
times, matched here by `Int.toNat`. -/
def calculate_euclidean_distance (vector_a vector_b : Vector) : ℚ :=
  if vector_a.len ≠ vector_b.len then FLT_MAX
  else
    ratSqrt ((List.range vector_a.len.toNat).foldl
      (fun acc i =>
        acc + (vector_a.data.getD i 0 - vector_b.data.getD i 0) *
              (vector_a.data.getD i 0 - vector_b.data.getD i 0)) 0)

/-- `SearchCandidate` from `vector_search.h`. -/
structure SearchCandidate where
  node_id : ℤ
  distance : ℚ
  deriving Repr, DecidableEq

instance : Inhabited SearchCandidate := ⟨⟨0, 0⟩⟩

/-- `PriorityQueue` (vector_search.c:45-50).  `size` is the list length; the
unused tail of the C allocation is not modelled. -/
structure PriorityQueue where
  candidates : List SearchCandidate
  capacity : ℤ
  is_max_heap : Bool
  deriving Repr

/-- `create_priority_queue` (vector_search.c:52-59). -/
def create_priority_queue (capacity : ℤ) (is_max_heap : Bool) : PriorityQueue :=
  ⟨[], capacity, is_max_heap⟩

/-- Read slot `i` of a candidate array (C array indexing; out-of-range reads
are UB in C and return the default here). -/
def candVal (l : List SearchCandidate) (i : ℕ) : SearchCandidate :=
  l.getD i default

/-- `swap_candidates` applied to slots `i` and `j` (vector_search.c:61-65). -/
def swapAt (l : List SearchCandidate) (i j : ℕ) : List SearchCandidate :=
  (l.set i (candVal l j)).set j (candVal l i)

@[simp] theorem length_swapAt (l : List SearchCandidate) (i j : ℕ) :
    (swapAt l i j).length = l.length := by
  simp [swapAt]

/-- The heap comparison used by both `heapify_up` and `heapify_down`:
`heapCmp isMax a b` is the C condition for `a` to belong above `b`
(`a.distance > b.distance` for a max-heap, `<` for a min-heap). -/
def heapCmp (isMax : Bool) (a b : SearchCandidate) : Bool :=
  if isMax then decide (b.distance < a.distance) else decide (a.distance < b.distance)

/-- Fuel-driven core of `heapify_up`, structurally recursive so concrete
instances reduce inside the kernel.  `heapify_up` passes fuel `child`, which
always suffices because the index strictly decreases at every step. -/
def heapifyUpGo (isMax : Bool) : ℕ → List SearchCandidate → ℕ → List SearchCandidate
  | 0, l, _ => l
  | _ + 1, l, 0 => l
  | fuel + 1, l, child + 1 =>
    if heapCmp isMax (candVal l (child + 1)) (candVal l (child / 2)) then
      heapifyUpGo isMax fuel (swapAt l (child + 1) (child / 2)) (child / 2)
    else l

/-- `heapify_up` (vector_search.c:67-79).  For `child = 0` the C code compares
slot 0 with itself under a strict order, which never swaps; we return the
array unchanged in that case. -/
def heapify_up (isMax : Bool) (l : List SearchCandidate) (child : ℕ) :
    List SearchCandidate :=
  heapifyUpGo isMax child l child

theorem heapifyUpGo_congr (isMax : Bool) :
    ∀ (f₁ f₂ child : ℕ) (l : List SearchCandidate), child ≤ f₁ → child ≤ f₂ →
      heapifyUpGo isMax f₁ l child = heapifyUpGo isMax f₂ l child := by
  intro f₁
  induction f₁ with
  | zero =>
    intro f₂ child l h₁ h₂
    obtain rfl : child = 0 := by omega
    cases f₂ <;> rfl
  | succ g₁ ih =>
    intro f₂ child l h₁ h₂
    cases child with
    | zero => cases f₂ <;> rfl
    | succ c =>
      cases f₂ with
      | zero => omega
      | succ g₂ =>
        simp only [heapifyUpGo]
        split_ifs with hcmp
        · exact ih g₂ (c / 2) _ (by omega) (by omega)
        · rfl

/-- The defining recursion of `heapify_up`, mirroring the shape of the C
loop body. -/
theorem heapify_up_eq (isMax : Bool) (l : List SearchCandidate) (child : ℕ) :
    heapify_up isMax l child =
      if child = 0 then l
      else
        let parent := (child - 1) / 2
        if heapCmp isMax (candVal l child) (candVal l parent) then
          heapify_up isMax (swapAt l child parent) parent
        else l := by
  cases child with
  | zero => rfl
  | succ c =>
    rw [if_neg (Nat.succ_ne_zero c)]
    show heapifyUpGo isMax (c + 1) l (c + 1) = _
    simp only [heapifyUpGo]
    simp only [Nat.add_sub_cancel]
    split_ifs with hcmp
    · exact heapifyUpGo_congr isMax c (c / 2) (c / 2) _ (by omega) (by omega)
    · rfl

/-- The intermediate `target_index` after the left-child comparison in
`heapify_down` (vector_search.c:86-91). -/
def targetIndex1 (isMax : Bool) (l : List SearchCandidate) (parent : ℕ) : ℕ :=
  if 2 * parent + 1 < l.length ∧
      heapCmp isMax (candVal l (2 * parent + 1)) (candVal l parent) = true then
    2 * parent + 1 else parent

/-- The final `target_index` after the right-child comparison in
`heapify_down` (vector_search.c:93-98). -/
def targetIndex (isMax : Bool) (l : List SearchCandidate) (parent : ℕ) : ℕ :=
  if 2 * parent + 2 < l.length ∧
      heapCmp isMax (candVal l (2 * parent + 2))
        (candVal l (targetIndex1 isMax l parent)) = true then
    2 * parent + 2 else targetIndex1 isMax l parent

theorem targetIndex1_spec (isMax : Bool) (l : List SearchCandidate) (parent : ℕ) :
    targetIndex1 isMax l parent = parent ∨
      (parent < targetIndex1 isMax l parent ∧ targetIndex1 isMax l parent < l.length) := by
  unfold targetIndex1
  split_ifs with h1
  · exact Or.inr ⟨by omega, h1.1⟩
  · exact Or.inl rfl

theorem targetIndex_spec (isMax : Bool) (l : List SearchCandidate) (parent : ℕ)
    (h : targetIndex isMax l parent ≠ parent) :
    parent < targetIndex isMax l parent ∧ targetIndex isMax l parent < l.length := by
  unfold targetIndex at *
  rcases targetIndex1_spec isMax l parent with h1 | h1 <;>
    split_ifs at * with h2 <;> omega

/-- Fuel-driven core of `heapify_down`, structurally recursive so concrete
instances reduce inside the kernel.  `heapify_down` passes fuel
`l.length - parent`, which always suffices because the index strictly
increases while staying below the length. -/
def heapifyDownGo (isMax : Bool) : ℕ → List SearchCandidate → ℕ → List SearchCandidate
  | 0, l, _ => l
  | fuel + 1, l, parent =>
    if targetIndex isMax l parent ≠ parent then
      heapifyDownGo isMax fuel (swapAt l parent (targetIndex isMax l parent))
        (targetIndex isMax l parent)
    else l

/-- `heapify_down` (vector_search.c:81-104). -/
def heapify_down (isMax : Bool) (l : List SearchCandidate) (parent : ℕ) :
    List SearchCandidate :=
  heapifyDownGo isMax (l.length - parent) l parent

theorem heapifyDownGo_congr (isMax : Bool) :
    ∀ (f₁ f₂ p : ℕ) (l : List SearchCandidate), l.length - p ≤ f₁ →
      l.length - p ≤ f₂ →
      heapifyDownGo isMax f₁ l p = heapifyDownGo isMax f₂ l p := by
  intro f₁
  induction f₁ with
  | zero =>
    intro f₂ p l h₁ h₂
    cases f₂ with
    | zero => rfl
    | succ g₂ =>
      show _ = heapifyDownGo isMax (g₂ + 1) l p
      simp only [heapifyDownGo]
      split_ifs with ht
      · exact absurd (targetIndex_spec isMax l p ht) (by omega)
      · rfl
  | succ g₁ ih =>
    intro f₂ p l h₁ h₂
    cases f₂ with
    | zero =>
      simp only [heapifyDownGo]
      split_ifs with ht
      · exact absurd (targetIndex_spec isMax l p ht) (by omega)
      · rfl
    | succ g₂ =>
      simp only [heapifyDownGo]
      split_ifs with ht
      · have hs := targetIndex_spec isMax l p ht
        exact ih g₂ _ _ (by rw [length_swapAt]; omega) (by rw [length_swapAt]; omega)
      · rfl

/-- The defining recursion of `heapify_down`, mirroring the shape of the C
loop body. -/
theorem heapify_down_eq (isMax : Bool) (l : List SearchCandidate) (parent : ℕ) :
    heapify_down isMax l parent =
      if targetIndex isMax l parent ≠ parent then
        heapify_down isMax (swapAt l parent (targetIndex isMax l parent))
          (targetIndex isMax l parent)
      else l := by
  simp only [heapify_down]
  rcases Nat.eq_zero_or_pos (l.length - parent) with h0 | hpos
  · rw [h0]
    split_ifs with ht
    · exact absurd (targetIndex_spec isMax l parent ht) (by omega)
    · rfl
  · obtain ⟨f, hf⟩ : ∃ f, l.length - parent = f + 1 :=
      ⟨l.length - parent - 1, by omega⟩
    rw [hf]
    simp only [heapifyDownGo]
    split_ifs with ht
    · have hs := targetIndex_spec isMax l parent ht
      exact heapifyDownGo_congr isMax f _ _ _ (by rw [length_swapAt]; omega)
        (le_refl _)
    · rfl

/-- `insert_candidate` (vector_search.c:106-126).  At capacity the C code
reads `candidates[0]`; with a non-positive capacity that read is UB in C and
returns the default candidate here. -/
def insert_candidate (q : PriorityQueue) (node_id : ℤ) (distance : ℚ) :
    PriorityQueue :=
  if (q.candidates.length : ℤ) < q.capacity then
    { q with candidates :=
        (heapify_up q.is_max_heap (q.candidates ++ [⟨node_id, distance⟩])
          q.candidates.length) }
  else if q.is_max_heap = true ∧ distance < (candVal q.candidates 0).distance then
    { q with candidates :=
        heapify_down q.is_max_heap (q.candidates.set 0 ⟨node_id, distance⟩) 0 }
  else if q.is_max_heap = false ∧ (candVal q.candidates 0).distance < distance then
    { q with candidates :=
        heapify_down q.is_max_heap (q.candidates.set 0 ⟨node_id, distance⟩) 0 }
  else q

/-- `extract_top_candidate` (vector_search.c:128-136), returning the removed
top together with the remaining queue.  Extraction from an empty queue is UB
in C (`size` becomes `-1`); it returns the default candidate and the empty
queue here.  All call sites guard on `size > 0`. -/
def extract_top_candidate (q : PriorityQueue) : SearchCandidate × PriorityQueue :=
  let top := candVal q.candidates 0
  if q.candidates.length ≤ 1 then (top, { q with candidates := [] })
  else
    (top, { q with candidates :=
        (heapify_down q.is_max_heap
          ((q.candidates.set 0 (candVal q.candidates (q.candidates.length - 1))).dropLast)
          0) })

/-- `HNSWNode` from `vector_search.h`.  In the C code
`connection_counts[layer]` always equals the number of valid entries of
`layer_connections[layer]` and `allocated_connection_sizes` tracks capacity
only; lists carry their own length, so both arrays are represented by
`layer_connections` alone. -/
structure HNSWNode where
  vector_id : ℤ
  maximum_layer : ℤ
  layer_connections : List (List ℤ)
  deriving Repr, DecidableEq

instance : Inhabited HNSWNode := ⟨⟨0, 0, []⟩⟩

/-- `create_hnsw_node` (vector_search.c:153-171): empty neighbor lists for
layers `0..maximum_layer`. -/
def create_hnsw_node (vector_id maximum_layer : ℤ) : HNSWNode :=
  ⟨vector_id, maximum_layer, List.replicate (maximum_layer.toNat + 1) []⟩

/-- `add_connection_to_node` (vector_search.c:173-194): no-op above the
node's top layer or when the id is already present, otherwise append. -/
def add_connection_to_node (node : HNSWNode) (layer : ℤ) (connected_node_id : ℤ) :
    HNSWNode :=
  if node.maximum_layer < layer then node
  else
    let conns := node.layer_connections.getD layer.toNat []
    if connected_node_id ∈ conns then node
    else { node with layer_connections :=
        node.layer_connections.set layer.toNat (conns ++ [connected_node_id]) }

/-- `HNSWGraph` from `vector_search.h`. -/
structure HNSWGraph where
  nodes : List HNSWNode
  original_vectors : List Vector
  node_count : ℤ
  entry_point_node_id : ℤ
  maximum_layer_in_graph : ℤ
  max_connections_per_node : ℤ
  max_connections_layer_zero : ℤ
  level_generation_factor : ℚ
  construction_search_width : ℤ
  deriving Repr, DecidableEq

/-- `VectorIndex` from `vector_search.h`. -/
structure VectorIndex where
  vectors : List Vector
  len : ℤ
  hnsw_graph : Option HNSWGraph
  use_hnsw_optimization : Bool

/-- `SearchConfig` from `vector_search.h`. -/
structure SearchConfig where
  search_width : ℤ
  max_distance_computations : ℤ
  accuracy_threshold : ℚ
  use_approximate_search : Bool

/-! ### Index-level list helpers -/

theorem getD_set_eq {α : Type _} :
    ∀ (l : List α) (i : ℕ) (a d : α), i < l.length → (l.set i a).getD i d = a
  | [], _, _, _, h => absurd h (by simp)
  | _ :: _, 0, _, _, _ => rfl
  | _ :: xs, i + 1, a, d, h => getD_set_eq xs i a d (by simpa using h)

theorem getD_set_ne {α : Type _} :
    ∀ (l : List α) (i j : ℕ) (a d : α), i ≠ j → (l.set i a).getD j d = l.getD j d
  | [], _, _, _, _, _ => by simp
  | _ :: _, 0, 0, _, _, h => absurd rfl h
  | _ :: _, 0, _ + 1, _, _, _ => rfl
  | _ :: _, _ + 1, 0, _, _, _ => rfl
  | _ :: xs, i + 1, j + 1, a, d, h =>
    getD_set_ne xs i j a d (fun e => h (by rw [e]))

theorem getD_dropLast {α : Type _} (l : List α) (k : ℕ) (d : α)
    (h : k < l.length - 1) : l.dropLast.getD k d = l.getD k d := by
  have h1 : k < l.dropLast.length := by simp [List.length_dropLast]; omega
  rw [List.getD_eq_getElem _ _ h1, List.getD_eq_getElem _ _ (by omega)]
  exact List.getElem_dropLast l k h1

/-! ### Max-heap correctness for the C binary heap -/

/-- The distance stored in slot `i`. -/
def heapVal (l : List SearchCandidate) (i : ℕ) : ℚ := (candVal l i).distance

/-- The C max-heap invariant: every non-root slot is `≤` its parent
`(i-1)/2`. -/
def IsMaxHeap (l : List SearchCandidate) : Prop :=
  ∀ j, 0 < j → j < l.length → heapVal l j ≤ heapVal l ((j - 1) / 2)

theorem candVal_swapAt_fst (l : List SearchCandidate) {i j : ℕ}
    (hi : i < l.length) (_ : j < l.length) :
    candVal (swapAt l i j) i = candVal l j := by
  by_cases hij : i = j
  · subst hij
    simp only [swapAt, candVal]
    rw [getD_set_eq _ _ _ _ (by simpa using hi)]
  · simp only [swapAt, candVal]
    rw [getD_set_ne _ _ _ _ _ (fun e => hij e.symm), getD_set_eq _ _ _ _ hi]

theorem candVal_swapAt_snd (l : List SearchCandidate) {i j : ℕ}
    (_ : i < l.length) (hj : j < l.length) :
    candVal (swapAt l i j) j = candVal l i := by
  simp only [swapAt, candVal]
  rw [getD_set_eq _ _ _ _ (by simpa using hj)]

theorem candVal_swapAt_other (l : List SearchCandidate) {i j k : ℕ}
    (hki : k ≠ i) (hkj : k ≠ j) :
    candVal (swapAt l i j) k = candVal l k := by
  simp only [swapAt, candVal]
  rw [getD_set_ne _ _ _ _ _ (fun e => hkj e.symm),
    getD_set_ne _ _ _ _ _ (fun e => hki e.symm)]


theorem heapCmp_true_iff (a b : SearchCandidate) :
    heapCmp true a b = true ↔ b.distance < a.distance := by
  simp [heapCmp]

theorem length_heapify_up (b : Bool) :
    ∀ (j : ℕ) (l : List SearchCandidate), (heapify_up b l j).length = l.length := by
  intro j
  induction j using Nat.strong_induction_on with
  | _ j ih =>
    intro l
    rw [heapify_up_eq]
    split_ifs with h0
    · rfl
    · simp only []
      split_ifs with hcmp
      · rw [ih _ (Nat.lt_of_le_of_lt (Nat.div_le_self _ _)
          (Nat.sub_lt (Nat.pos_of_ne_zero h0) one_pos)), length_swapAt]
      · rfl

theorem length_heapify_down_aux (b : Bool) :
    ∀ (n : ℕ) (l : List SearchCandidate) (p : ℕ), l.length - p ≤ n →
      (heapify_down b l p).length = l.length := by
  intro n
  induction n with
  | zero =>
    intro l p hn
    rw [heapify_down_eq]
    split_ifs with ht
    · exact absurd (targetIndex_spec b l p ht) (by omega)
    · rfl
  | succ n ihn =>
    intro l p hn
    rw [heapify_down_eq]
    split_ifs with ht
    · have hs := targetIndex_spec b l p ht
      rw [ihn (swapAt l p (targetIndex b l p)) _ (by rw [length_swapAt]; omega),
        length_swapAt]
    · rfl

theorem length_heapify_down (b : Bool) (l : List SearchCandidate) (p : ℕ) :
    (heapify_down b l p).length = l.length :=
  length_heapify_down_aux b l.length l p (by omega)

theorem heapVal_le_root (l : List SearchCandidate) (h : IsMaxHeap l) :
    ∀ j, j < l.length → heapVal l j ≤ heapVal l 0 := by
  intro j
  induction j using Nat.strong_induction_on with
  | _ j ih =>
    intro hj
    rcases Nat.eq_zero_or_pos j with h0 | h0
    · subst h0; exact le_refl _
    · have hd : (j - 1) / 2 < j := by
        have := Nat.div_le_self (j - 1) 2
        omega
      exact le_trans (h j h0 hj) (ih _ hd (by omega))

/-- State of the array when `heapify_up` is entered: the parent inequality
holds everywhere except possibly at `j`, and `j`'s children (if any) are
bounded by `j`'s parent. -/
def AHeapUp (l : List SearchCandidate) (j : ℕ) : Prop :=
  (∀ k, 0 < k → k < l.length → k ≠ j → heapVal l k ≤ heapVal l ((k - 1) / 2)) ∧
  (0 < j → ∀ k, k < l.length → (k - 1) / 2 = j → heapVal l k ≤ heapVal l ((j - 1) / 2))

theorem AHeapUp_swap (l : List SearchCandidate) (j : ℕ) (h0 : j ≠ 0)
    (hj : j < l.length) (h : AHeapUp l j)
    (hcmp : heapVal l ((j - 1) / 2) < heapVal l j) :
    AHeapUp (swapAt l j ((j - 1) / 2)) ((j - 1) / 2) := by
  set p := (j - 1) / 2 with hp
  have hpj : p < j := by have := Nat.div_le_self (j - 1) 2; omega
  have hplen : p < l.length := by omega
  have vj : heapVal (swapAt l j p) j = heapVal l p := by
    simp only [heapVal, candVal_swapAt_fst l hj hplen]
  have vp : heapVal (swapAt l j p) p = heapVal l j := by
    simp only [heapVal, candVal_swapAt_snd l hj hplen]
  have vo : ∀ k, k ≠ j → k ≠ p → heapVal (swapAt l j p) k = heapVal l k := by
    intro k hkj hkp
    simp only [heapVal, candVal_swapAt_other l hkj hkp]
  constructor
  · intro k hk0 hklen hkp
    rw [length_swapAt] at hklen
    by_cases hkj : k = j
    · subst hkj
      rw [vj, hp.symm, vp]
      exact le_of_lt hcmp
    · by_cases hparj : (k - 1) / 2 = j
      · -- k is a child of j; use the second clause of h
        have hkne : k ≠ p := by omega
        rw [vo k hkj hkne, hparj, vj]
        exact h.2 (Nat.pos_of_ne_zero h0) k hklen hparj
      · by_cases hparp : (k - 1) / 2 = p
        · have hkne : k ≠ p := by omega
          rw [vo k hkj hkne, hparp, vp]
          exact le_trans (h.1 k hk0 hklen hkj) (by rw [hparp]; exact le_of_lt hcmp)
        · have hkne : k ≠ p := hkp
          rw [vo k hkj hkne, vo _ hparj hparp]
          exact h.1 k hk0 hklen hkj
  · intro hp0 k hklen hpark
    rw [length_swapAt] at hklen
    have hgp : (p - 1) / 2 ≠ j := by
      have := Nat.div_le_self (p - 1) 2
      omega
    have hgp2 : (p - 1) / 2 ≠ p := by
      have := Nat.div_le_self (p - 1) 2
      omega
    rw [vo _ hgp hgp2]
    by_cases hkj : k = j
    · subst hkj
      rw [vj]
      exact h.1 p hp0 hplen (by omega)
    · have hkp : k ≠ p := by omega
      rw [vo k hkj hkp]
      calc heapVal l k ≤ heapVal l ((k - 1) / 2) := h.1 k (by omega) hklen hkj
        _ = heapVal l p := by rw [hpark]
        _ ≤ heapVal l ((p - 1) / 2) := h.1 p hp0 hplen (by omega)

theorem isMaxHeap_heapify_up :
    ∀ (j : ℕ) (l : List SearchCandidate), j < l.length → AHeapUp l j →
      IsMaxHeap (heapify_up true l j) := by
  intro j
  induction j using Nat.strong_induction_on with
  | _ j ih =>
    intro l hj h
    rw [heapify_up_eq]
    split_ifs with h0
    · subst h0
      intro k hk0 hklen
      exact h.1 k hk0 hklen (by omega)
    · simp only []
      split_ifs with hcmp
      · have hpj : (j - 1) / 2 < j := by have := Nat.div_le_self (j - 1) 2; omega
        exact ih _ hpj _ (by rw [length_swapAt]; omega)
          (AHeapUp_swap l j h0 hj h ((heapCmp_true_iff _ _).mp hcmp))
      · intro k hk0 hklen
        by_cases hkj : k = j
        · subst hkj
          exact not_lt.mp (by simpa [heapCmp_true_iff] using hcmp)
        · exact h.1 k hk0 hklen hkj

theorem AHeapUp_append (l : List SearchCandidate) (c : SearchCandidate)
    (h : IsMaxHeap l) : AHeapUp (l ++ [c]) l.length := by
  constructor
  · intro k hk0 hklen hkj
    rw [List.length_append, List.length_singleton] at hklen
    have hklt : k < l.length := by omega
    have hpar : (k - 1) / 2 < l.length := by
      have := Nat.div_le_self (k - 1) 2
      omega
    simp only [heapVal, candVal, List.getD_append _ _ _ _ hklt,
      List.getD_append _ _ _ _ hpar]
    exact h k hk0 hklt
  · intro hl0 k hklen hpark
    rw [List.length_append, List.length_singleton] at hklen
    omega

/-- State of the array when `heapify_down` is entered: the parent inequality
holds everywhere except possibly for children of `i`, and those children are
bounded by `i`'s parent (when `i` has one). -/
def AHeapDown (l : List SearchCandidate) (i : ℕ) : Prop :=
  ∀ k, 0 < k → k < l.length →
    ((k - 1) / 2 ≠ i → heapVal l k ≤ heapVal l ((k - 1) / 2)) ∧
    ((k - 1) / 2 = i → 0 < i → heapVal l k ≤ heapVal l ((i - 1) / 2))


theorem targetIndex1_cases (l : List SearchCandidate) (i : ℕ) :
    (targetIndex1 true l i = 2 * i + 1 ∧ 2 * i + 1 < l.length ∧
      heapVal l i < heapVal l (2 * i + 1)) ∨
    (targetIndex1 true l i = i ∧
      ¬ (2 * i + 1 < l.length ∧ heapVal l i < heapVal l (2 * i + 1))) := by
  by_cases h1 : 2 * i + 1 < l.length ∧
      heapCmp true (candVal l (2 * i + 1)) (candVal l i) = true
  · exact Or.inl ⟨by simp only [targetIndex1, if_pos h1], h1.1,
      (heapCmp_true_iff _ _).mp h1.2⟩
  · refine Or.inr ⟨by simp only [targetIndex1, if_neg h1], ?_⟩
    intro hc
    exact h1 ⟨hc.1, (heapCmp_true_iff _ _).mpr hc.2⟩

theorem targetIndex_cases (l : List SearchCandidate) (i : ℕ) :
    (targetIndex true l i = 2 * i + 2 ∧ 2 * i + 2 < l.length ∧
      heapVal l (targetIndex1 true l i) < heapVal l (2 * i + 2)) ∨
    (targetIndex true l i = targetIndex1 true l i ∧
      ¬ (2 * i + 2 < l.length ∧
        heapVal l (targetIndex1 true l i) < heapVal l (2 * i + 2))) := by
  by_cases h2 : 2 * i + 2 < l.length ∧
      heapCmp true (candVal l (2 * i + 2)) (candVal l (targetIndex1 true l i)) = true
  · exact Or.inl ⟨by simp only [targetIndex, if_pos h2], h2.1,
      (heapCmp_true_iff _ _).mp h2.2⟩
  · refine Or.inr ⟨by simp only [targetIndex, if_neg h2], ?_⟩
    intro hc
    exact h2 ⟨hc.1, (heapCmp_true_iff _ _).mpr hc.2⟩

theorem targetIndex_eq_self_le (l : List SearchCandidate) (i k : ℕ)
    (ht : targetIndex true l i = i) (hk : (k - 1) / 2 = i) (hk0 : 0 < k)
    (hklen : k < l.length) : heapVal l k ≤ heapVal l i := by
  rcases targetIndex1_cases l i with ⟨e1, hlt1, _⟩ | ⟨e1, hn1⟩
  · -- targetIndex1 = 2i+1 > i, but then targetIndex ∈ {2i+1, 2i+2} ≠ i
    rcases targetIndex_cases l i with ⟨e2, _, _⟩ | ⟨e2, _⟩ <;> omega
  · rcases targetIndex_cases l i with ⟨e2, _, _⟩ | ⟨e2, hn2⟩
    · omega
    · rw [e1] at hn2
      have hk12 : k = 2 * i + 1 ∨ k = 2 * i + 2 := by omega
      rcases hk12 with hk1 | hk1 <;> subst hk1
      · exact not_lt.mp (fun hlt => hn1 ⟨hklen, hlt⟩)
      · exact not_lt.mp (fun hlt => hn2 ⟨hklen, hlt⟩)

theorem targetIndex_gt (l : List SearchCandidate) (i : ℕ)
    (ht : targetIndex true l i ≠ i) :
    (targetIndex true l i = 2 * i + 1 ∨ targetIndex true l i = 2 * i + 2) ∧
    heapVal l i < heapVal l (targetIndex true l i) ∧
    (∀ s, (s = 2 * i + 1 ∨ s = 2 * i + 2) → s < l.length →
      s ≠ targetIndex true l i → heapVal l s ≤ heapVal l (targetIndex true l i)) := by
  rcases targetIndex_cases l i with ⟨e2, hlen2, hlt2⟩ | ⟨e2, hn2⟩
  · -- right child selected
    rcases targetIndex1_cases l i with ⟨e1, hlen1, hlt1⟩ | ⟨e1, hn1⟩
    · rw [e1] at hlt2
      refine ⟨Or.inr e2, ?_, ?_⟩
      · rw [e2]; exact lt_trans hlt1 hlt2
      · intro s hs hslen hsne
        rw [e2] at hsne ⊢
        have hs1 : s = 2 * i + 1 := by omega
        subst hs1
        exact le_of_lt hlt2
    · rw [e1] at hlt2
      refine ⟨Or.inr e2, ?_, ?_⟩
      · rw [e2]; exact hlt2
      · intro s hs hslen hsne
        rw [e2] at hsne ⊢
        have hs1 : s = 2 * i + 1 := by omega
        subst hs1
        exact le_trans (not_lt.mp (fun hlt => hn1 ⟨hslen, hlt⟩)) (le_of_lt hlt2)
  · -- right child not selected: targetIndex = targetIndex1, which must be 2i+1
    rcases targetIndex1_cases l i with ⟨e1, hlen1, hlt1⟩ | ⟨e1, hn1⟩
    · have e : targetIndex true l i = 2 * i + 1 := by rw [e2, e1]
      rw [e1] at hn2
      refine ⟨Or.inl e, ?_, ?_⟩
      · rw [e]; exact hlt1
      · intro s hs hslen hsne
        rw [e] at hsne ⊢
        have hs1 : s = 2 * i + 2 := by omega
        subst hs1
        exact not_lt.mp (fun hlt => hn2 ⟨hslen, hlt⟩)
    · exact absurd (by rw [e2, e1]) ht

theorem AHeapDown_swap (l : List SearchCandidate) (i : ℕ)
    (ht : targetIndex true l i ≠ i) (h : AHeapDown l i) :
    AHeapDown (swapAt l i (targetIndex true l i)) (targetIndex true l i) := by
  obtain ⟨hti, hlen⟩ := targetIndex_spec true l i ht
  obtain ⟨htc, hlt, hsib⟩ := targetIndex_gt l i ht
  set t := targetIndex true l i with hteq
  have hilen : i < l.length := by omega
  have vi : heapVal (swapAt l i t) i = heapVal l t := by
    simp only [heapVal, candVal_swapAt_fst l hilen hlen]
  have vt : heapVal (swapAt l i t) t = heapVal l i := by
    simp only [heapVal, candVal_swapAt_snd l hilen hlen]
  have vo : ∀ k, k ≠ i → k ≠ t → heapVal (swapAt l i t) k = heapVal l k := by
    intro k hki hkt
    simp only [heapVal, candVal_swapAt_other l hki hkt]
  have hpart : (t - 1) / 2 = i := by omega
  intro k hk0 hklen
  rw [length_swapAt] at hklen
  constructor
  · intro hpk
    by_cases hkt : k = t
    · subst hkt
      rw [vt, hpart, vi]
      exact le_of_lt hlt
    · by_cases hki : k = i
      · subst hki
        -- i has a parent since 0 < i; children of i were ≤ parent of i
        have hpi : (k - 1) / 2 ≠ k := by omega
        have hpi2 : (k - 1) / 2 ≠ t := by omega
        rw [vi, vo _ hpi hpi2]
        exact (h t (by omega) hlen).2 hpart hk0
      · by_cases hpki : (k - 1) / 2 = i
        · -- k is the sibling of t
          rw [vo k hki hkt, hpki, vi]
          exact hsib k (by omega) hklen hkt
        · -- untouched position with untouched parent
          have hpt : (k - 1) / 2 ≠ t := hpk
          rw [vo k hki hkt, vo _ hpki hpt]
          exact (h k hk0 hklen).1 hpki
  · intro hpk ht0
    -- k is a child of t; (t-1)/2 = i holds
    rw [hpart]
    have hki : k ≠ i := by omega
    have hkt : k ≠ t := by omega
    rw [vo k hki hkt, vi, ← hpk]
    exact (h k hk0 hklen).1 (by omega)

theorem isMaxHeap_heapify_down_aux :
    ∀ (n : ℕ) (l : List SearchCandidate) (i : ℕ), l.length - i ≤ n →
      AHeapDown l i → IsMaxHeap (heapify_down true l i) := by
  intro n
  induction n with
  | zero =>
    intro l i hn h
    rw [heapify_down_eq]
    split_ifs with ht
    · exact absurd (targetIndex_spec true l i ht) (by omega)
    · intro k hk0 hklen
      refine (h k hk0 hklen).1 ?_
      have := Nat.div_le_self (k - 1) 2
      omega
  | succ n ihn =>
    intro l i hn h
    rw [heapify_down_eq]
    split_ifs with ht
    · have hs := targetIndex_spec true l i ht
      exact ihn _ _ (by rw [length_swapAt]; omega) (AHeapDown_swap l i ht h)
    · intro k hk0 hklen
      by_cases hpk : (k - 1) / 2 = i
      · rw [hpk]
        exact targetIndex_eq_self_le l i k (not_not.mp ht) hpk hk0 hklen
      · exact (h k hk0 hklen).1 hpk

theorem isMaxHeap_heapify_down (l : List SearchCandidate) (i : ℕ)
    (h : AHeapDown l i) : IsMaxHeap (heapify_down true l i) :=
  isMaxHeap_heapify_down_aux l.length l i (by omega) h

theorem insert_candidate_capacity (q : PriorityQueue) (id : ℤ) (d : ℚ) :
    (insert_candidate q id d).capacity = q.capacity := by
  unfold insert_candidate
  split_ifs <;> rfl

theorem insert_candidate_is_max_heap (q : PriorityQueue) (id : ℤ) (d : ℚ) :
    (insert_candidate q id d).is_max_heap = q.is_max_heap := by
  unfold insert_candidate
  split_ifs <;> rfl

theorem extract_top_candidate_capacity (q : PriorityQueue) :
    (extract_top_candidate q).2.capacity = q.capacity := by
  unfold extract_top_candidate
  split_ifs <;> rfl

theorem extract_top_candidate_is_max_heap (q : PriorityQueue) :
    (extract_top_candidate q).2.is_max_heap = q.is_max_heap := by
  unfold extract_top_candidate
  split_ifs <;> rfl

theorem extract_top_candidate_fst (q : PriorityQueue) :
    (extract_top_candidate q).1 = candVal q.candidates 0 := by
  unfold extract_top_candidate
  split_ifs <;> rfl

theorem length_insert_candidate (q : PriorityQueue) (id : ℤ) (d : ℚ) :
    (insert_candidate q id d).candidates.length =
      if (q.candidates.length : ℤ) < q.capacity then q.candidates.length + 1
      else q.candidates.length := by
  unfold insert_candidate
  split_ifs with h1 h2 h3 <;>
    simp [length_heapify_up, length_heapify_down, List.length_set]

theorem length_extract_top_candidate (q : PriorityQueue) :
    (extract_top_candidate q).2.candidates.length = q.candidates.length - 1 := by
  unfold extract_top_candidate
  split_ifs with h1
  · simp; omega
  · simp [length_heapify_down, List.length_dropLast, List.length_set]

theorem AHeapDown_set_root (l : List SearchCandidate) (c : SearchCandidate)
    (h : IsMaxHeap l) : AHeapDown (l.set 0 c) 0 := by
  intro k hk0 hklen
  rw [List.length_set] at hklen
  constructor
  · intro hpk
    simp only [heapVal, candVal]
    rw [getD_set_ne _ _ _ _ _ (by omega), getD_set_ne _ _ _ _ _ (fun e => hpk e.symm)]
    exact h k hk0 hklen
  · intro _ h00
    omega

theorem isMaxHeap_insert_candidate (q : PriorityQueue) (id : ℤ) (d : ℚ)
    (hq : q.is_max_heap = true) (h : IsMaxHeap q.candidates) :
    IsMaxHeap (insert_candidate q id d).candidates := by
  unfold insert_candidate
  split_ifs with h1 h2 h3
  · simp only [hq]
    exact isMaxHeap_heapify_up q.candidates.length _ (by simp) (AHeapUp_append _ _ h)
  · simp only [hq]
    exact isMaxHeap_heapify_down _ 0 (AHeapDown_set_root _ _ h)
  · rw [h3.1] at hq
    exact absurd hq (by simp)
  · exact h

theorem AHeapDown_extract (l : List SearchCandidate) (h : IsMaxHeap l) :
    AHeapDown ((l.set 0 (candVal l (l.length - 1))).dropLast) 0 := by
  intro k hk0 hklen
  rw [List.length_dropLast, List.length_set] at hklen
  constructor
  · intro hpk
    have hpar_lt : (k - 1) / 2 < k := by
      have := Nat.div_le_self (k - 1) 2
      omega
    simp only [heapVal, candVal]
    rw [getD_dropLast _ _ _ (by rw [List.length_set]; omega),
      getD_dropLast _ _ _ (by rw [List.length_set]; omega),
      getD_set_ne _ _ _ _ _ (by omega),
      getD_set_ne _ _ _ _ _ (fun e => hpk e.symm)]
    exact h k hk0 (by omega)
  · intro _ h00
    omega

theorem isMaxHeap_extract_top_candidate (q : PriorityQueue)
    (hq : q.is_max_heap = true) (h : IsMaxHeap q.candidates) :
    IsMaxHeap (extract_top_candidate q).2.candidates := by
  unfold extract_top_candidate
  split_ifs with h1
  · intro k hk0 hklen
    simp at hklen
  · simp only [hq]
    exact isMaxHeap_heapify_down _ 0 (AHeapDown_extract _ h)

/-! ### Pointwise invariants over queue contents -/

/-- `P` holds for every occupied slot of the candidate array. -/
def PAll (P : SearchCandidate → Prop) (l : List SearchCandidate) : Prop :=
  ∀ k, k < l.length → P (candVal l k)

theorem PAll_swapAt {P : SearchCandidate → Prop} {l : List SearchCandidate}
    {i j : ℕ} (h : PAll P l) (hi : i < l.length) (hj : j < l.length) :
    PAll P (swapAt l i j) := by
  intro k hk
  rw [length_swapAt] at hk
  by_cases hki : k = i
  · subst hki
    rw [candVal_swapAt_fst l hi hj]
    exact h j hj
  · by_cases hkj : k = j
    · subst hkj
      rw [candVal_swapAt_snd l hi hj]
      exact h i hi
    · rw [candVal_swapAt_other l hki hkj]
      exact h k hk

theorem PAll_heapify_up {P : SearchCandidate → Prop} (b : Bool) :
    ∀ (j : ℕ) (l : List SearchCandidate), j < l.length → PAll P l →
      PAll P (heapify_up b l j) := by
  intro j
  induction j using Nat.strong_induction_on with
  | _ j ih =>
    intro l hj h
    rw [heapify_up_eq]
    split_ifs with h0
    · exact h
    · simp only []
      split_ifs with hcmp
      · have hpj : (j - 1) / 2 < j := by have := Nat.div_le_self (j - 1) 2; omega
        exact ih _ hpj _ (by rw [length_swapAt]; omega)
          (PAll_swapAt h hj (by omega))
      · exact h

theorem PAll_heapify_down {P : SearchCandidate → Prop} (b : Bool) :
    ∀ (n : ℕ) (l : List SearchCandidate) (i : ℕ), l.length - i ≤ n → PAll P l →
      PAll P (heapify_down b l i) := by
  intro n
  induction n with
  | zero =>
    intro l i hn h
    rw [heapify_down_eq]
    split_ifs with ht
    · exact absurd (targetIndex_spec b l i ht) (by omega)
    · exact h
  | succ n ihn =>
    intro l i hn h
    rw [heapify_down_eq]
    split_ifs with ht
    · obtain ⟨hti, hlen⟩ := targetIndex_spec b l i ht
      exact ihn _ _ (by rw [length_swapAt]; omega)
        (PAll_swapAt h (by omega) hlen)
    · exact h

theorem PAll_append_singleton {P : SearchCandidate → Prop}
    {l : List SearchCandidate} {c : SearchCandidate} (h : PAll P l) (hc : P c) :
    PAll P (l ++ [c]) := by
  intro k hk
  rw [List.length_append, List.length_singleton] at hk
  by_cases hkl : k < l.length
  · rw [candVal, List.getD_append _ _ _ _ hkl]
    exact h k hkl
  · have hke : k = l.length := by omega
    subst hke
    rw [candVal, List.getD_append_right _ _ _ _ (by omega)]
    simpa using hc

theorem PAll_set_zero {P : SearchCandidate → Prop} {l : List SearchCandidate}
    {c : SearchCandidate} (h : PAll P l) (hc : P c) : PAll P (l.set 0 c) := by
  intro k hk
  rw [List.length_set] at hk
  by_cases hk0 : k = 0
  · subst hk0
    rw [candVal, getD_set_eq _ _ _ _ hk]
    exact hc
  · rw [candVal, getD_set_ne _ _ _ _ _ (fun e => hk0 e.symm)]
    exact h k hk

theorem PAll_insert_candidate {P : SearchCandidate → Prop} (q : PriorityQueue)
    (id : ℤ) (d : ℚ) (h : PAll P q.candidates) (hc : P ⟨id, d⟩) :
    PAll P (insert_candidate q id d).candidates := by
  unfold insert_candidate
  split_ifs with h1 h2 h3
  · exact PAll_heapify_up _ _ _ (by simp) (PAll_append_singleton h hc)
  · exact PAll_heapify_down _ (q.candidates.set 0 ⟨id, d⟩).length _ 0 (by omega)
      (PAll_set_zero h hc)
  · exact PAll_heapify_down _ (q.candidates.set 0 ⟨id, d⟩).length _ 0 (by omega)
      (PAll_set_zero h hc)
  · exact h

theorem PAll_extract_top_candidate {P : SearchCandidate → Prop}
    (q : PriorityQueue) (h : PAll P q.candidates) :
    PAll P (extract_top_candidate q).2.candidates := by
  unfold extract_top_candidate
  split_ifs with h1
  · intro k hk
    simp at hk
  · refine PAll_heapify_down _
      ((q.candidates.set 0 (candVal q.candidates (q.candidates.length - 1))).dropLast).length
      _ 0 (by omega) ?_
    intro k hk
    rw [List.length_dropLast, List.length_set] at hk
    rw [candVal, getD_dropLast _ _ _ (by rw [List.length_set]; omega)]
    by_cases hk0 : k = 0
    · subst hk0
      rw [getD_set_eq _ _ _ _ (by omega)]
      exact h (q.candidates.length - 1) (by omega)
    · rw [getD_set_ne _ _ _ _ _ (fun e => hk0 e.symm)]
      exact h k (by omega)

/-! ### Draining the `visited` max-heap into an ascending array
(vector_search.c:409-417). -/

/-- Fuel-driven core of `drainAsc`, structurally recursive so concrete
instances reduce inside the kernel.  `drainAsc` passes fuel
`q.candidates.length`, which always suffices because extraction shortens the
queue. -/
def drainAscGo : ℕ → PriorityQueue → List SearchCandidate
  | 0, _ => []
  | fuel + 1, q =>
    if q.candidates.length = 0 then []
    else drainAscGo fuel (extract_top_candidate q).2 ++ [(extract_top_candidate q).1]

/-- The result-array fill loop of `search_layer` (vector_search.c:414-417):
repeatedly extract the top and write it at the back of the output, producing
a list ordered closest-first. -/
def drainAsc (q : PriorityQueue) : List SearchCandidate :=
  drainAscGo q.candidates.length q

theorem drainAscGo_congr :
    ∀ (f₁ f₂ : ℕ) (q : PriorityQueue), q.candidates.length ≤ f₁ →
      q.candidates.length ≤ f₂ → drainAscGo f₁ q = drainAscGo f₂ q := by
  intro f₁
  induction f₁ with
  | zero =>
    intro f₂ q h₁ h₂
    cases f₂ with
    | zero => rfl
    | succ g₂ =>
      show _ = drainAscGo (g₂ + 1) q
      simp only [drainAscGo]
      rw [if_pos (by omega)]
  | succ g₁ ih =>
    intro f₂ q h₁ h₂
    cases f₂ with
    | zero =>
      simp only [drainAscGo]
      rw [if_pos (by omega)]
    | succ g₂ =>
      simp only [drainAscGo]
      split_ifs with h0
      · rfl
      · rw [ih g₂ _ (by rw [length_extract_top_candidate]; omega)
          (by rw [length_extract_top_candidate]; omega)]

/-- The defining recursion of `drainAsc`, mirroring the shape of the C
loop body. -/
theorem drainAsc_eq (q : PriorityQueue) :
    drainAsc q =
      if q.candidates.length = 0 then []
      else drainAsc (extract_top_candidate q).2 ++ [(extract_top_candidate q).1] := by
  simp only [drainAsc]
  rcases Nat.eq_zero_or_pos q.candidates.length with h0 | hpos
  · rw [h0, if_pos rfl]
    rfl
  · obtain ⟨f, hf⟩ : ∃ f, q.candidates.length = f + 1 :=
      ⟨q.candidates.length - 1, by omega⟩
    rw [hf]
    simp only [drainAscGo]
    rw [if_neg (by omega), if_neg (by omega)]
    rw [drainAscGo_congr f ((extract_top_candidate q).2.candidates.length) _
        (by rw [length_extract_top_candidate]; omega) (le_refl _)]

theorem length_drainAsc : ∀ (n : ℕ) (q : PriorityQueue),
    q.candidates.length ≤ n → (drainAsc q).length = q.candidates.length := by
  intro n
  induction n with
  | zero =>
    intro q hq
    rw [drainAsc_eq]
    split_ifs with h0
    · simp [h0]
    · omega
  | succ n ihn =>
    intro q hq
    rw [drainAsc_eq]
    split_ifs with h0
    · simp [h0]
    · rw [List.length_append, List.length_singleton,
        ihn _ (by rw [length_extract_top_candidate]; omega),
        length_extract_top_candidate]
      omega

theorem mem_drainAsc {P : SearchCandidate → Prop} : ∀ (n : ℕ) (q : PriorityQueue),
    q.candidates.length ≤ n → PAll P q.candidates →
      ∀ x ∈ drainAsc q, P x := by
  intro n
  induction n with
  | zero =>
    intro q hq h x hx
    rw [drainAsc_eq] at hx
    split_ifs at hx with h0
    · simp at hx
    · omega
  | succ n ihn =>
    intro q hq h x hx
    rw [drainAsc_eq] at hx
    split_ifs at hx with h0
    · simp at hx
    · rw [List.mem_append] at hx
      rcases hx with hx | hx
      · exact ihn _ (by rw [length_extract_top_candidate]; omega)
          (PAll_extract_top_candidate q h) x hx
      · rw [List.mem_singleton] at hx
        subst hx
        rw [extract_top_candidate_fst]
        exact h 0 (by omega)

theorem drainAsc_sorted : ∀ (n : ℕ) (q : PriorityQueue),
    q.candidates.length ≤ n → q.is_max_heap = true → IsMaxHeap q.candidates →
      List.Pairwise (fun a b => a.distance ≤ b.distance) (drainAsc q) := by
  intro n
  induction n with
  | zero =>
    intro q hq hmax h
    rw [drainAsc_eq]
    split_ifs with h0
    · exact List.Pairwise.nil
    · omega
  | succ n ihn =>
    intro q hq hmax h
    rw [drainAsc_eq]
    split_ifs with h0
    · exact List.Pairwise.nil
    · rw [List.pairwise_append]
      refine ⟨ihn _ (by rw [length_extract_top_candidate]; omega)
          (by rw [extract_top_candidate_is_max_heap]; exact hmax)
          (isMaxHeap_extract_top_candidate q hmax h), by simp, ?_⟩
      intro a ha b hb
      rw [List.mem_singleton] at hb
      subst hb
      rw [extract_top_candidate_fst]
      have hroot := heapVal_le_root q.candidates h
      have hP : PAll (fun c => c.distance ≤ (candVal q.candidates 0).distance)
          (extract_top_candidate q).2.candidates :=
        PAll_extract_top_candidate q (fun k hk => hroot k hk)
      exact mem_drainAsc (P := fun c => c.distance ≤ (candVal q.candidates 0).distance)
        n _ (by rw [length_extract_top_candidate]; omega) hP a ha

instance : Inhabited Vector := ⟨⟨[], 0⟩⟩

/-! ### `search_layer` (vector_search.c:364-424) -/

/-- One iteration of the neighbor-exploration loop of `search_layer`
(vector_search.c:386-405).  The state is
`(candidates, visited, visited_flags)`; the flag array is modelled as the set
of node ids whose flag is 1. -/
def exploreNeighbor (dist : ℤ → ℚ) (search_width : ℤ)
    (st : PriorityQueue × PriorityQueue × Finset ℤ) (neighbor_id : ℤ) :
    PriorityQueue × PriorityQueue × Finset ℤ :=
  if neighbor_id ∈ st.2.2 then st
  else
    let d := dist neighbor_id
    if (st.2.1.candidates.length : ℤ) < search_width ∨
        d < (candVal st.2.1.candidates 0).distance then
      (insert_candidate st.1 neighbor_id d,
       insert_candidate st.2.1 neighbor_id d,
       insert neighbor_id st.2.2)
    else (st.1, st.2.1, insert neighbor_id st.2.2)

/-- The `while (candidates->size > 0)` loop of `search_layer`
(vector_search.c:375-407), written with explicit fuel.  The C loop always
terminates: every iteration pops one element of `candidates`, and elements
are pushed only for the seed and for ids whose visited flag was just set —
each id at most once — so the iteration count is bounded by
`totalConnectionCount + 2`, the fuel supplied by `search_layer` below. -/
def searchLayerLoop (g : HNSWGraph) (dist : ℤ → ℚ) (layer search_width : ℤ) :
    ℕ → PriorityQueue × PriorityQueue × Finset ℤ →
      PriorityQueue × PriorityQueue × Finset ℤ
  | 0, st => st
  | fuel + 1, st =>
    if st.1.candidates.length = 0 then st
    else
      let current := (extract_top_candidate st.1).1
      let cands := (extract_top_candidate st.1).2
      if (search_width ≤ (st.2.1.candidates.length : ℤ)) ∧
          (candVal st.2.1.candidates 0).distance < current.distance then
        (cands, st.2.1, st.2.2)
      else
        let node := g.nodes.getD current.node_id.toNat default
        let st2 := if layer ≤ node.maximum_layer then
            (node.layer_connections.getD layer.toNat []).foldl
              (exploreNeighbor dist search_width) (cands, st.2.1, st.2.2)
          else (cands, st.2.1, st.2.2)
        searchLayerLoop g dist layer search_width fuel st2

/-- Total number of neighbor-list entries in the graph: an upper bound for
the number of flag-settings (and hence queue pushes) in any search. -/
def totalConnectionCount (g : HNSWGraph) : ℕ :=
  (g.nodes.map (fun n => (n.layer_connections.map List.length).sum)).sum

/-- `search_layer` (vector_search.c:364-424): seed both heaps and the flag
set with the entry point, run the beam loop, then drain the `visited`
max-heap into an ascending array and keep the ids. -/
def search_layer (g : HNSWGraph) (query : Vector) (entry_point : ℤ)
    (layer : ℤ) (search_width : ℤ) : List ℤ :=
  let dist := fun id : ℤ =>
    calculate_euclidean_distance query (g.original_vectors.getD id.toNat default)
  let cands0 := insert_candidate (create_priority_queue search_width false)
    entry_point (dist entry_point)
  let visited0 := insert_candidate (create_priority_queue (search_width * 2) true)
    entry_point (dist entry_point)
  let final := searchLayerLoop g dist layer search_width
    (totalConnectionCount g + 2) (cands0, visited0, {entry_point})
  (drainAsc final.2.1).map SearchCandidate.node_id

/-- The candidate stored for a node id records that id's distance. -/
def distOk (dist : ℤ → ℚ) (c : SearchCandidate) : Prop :=
  c.distance = dist c.node_id

/-- Invariants of the `visited` max-heap during `search_layer`. -/
def VisitedInv (dist : ℤ → ℚ) (w : ℤ) (q : PriorityQueue) : Prop :=
  q.is_max_heap = true ∧ q.capacity = 2 * w ∧ IsMaxHeap q.candidates ∧
    PAll (distOk dist) q.candidates ∧ (q.candidates.length : ℤ) ≤ 2 * w

theorem VisitedInv_insert (dist : ℤ → ℚ) (w : ℤ) (q : PriorityQueue) (id : ℤ)
    (h : VisitedInv dist w q) :
    VisitedInv dist w (insert_candidate q id (dist id)) := by
  obtain ⟨h1, h2, h3, h4, h5⟩ := h
  refine ⟨by rw [insert_candidate_is_max_heap]; exact h1,
    by rw [insert_candidate_capacity]; exact h2,
    isMaxHeap_insert_candidate q id _ h1 h3,
    PAll_insert_candidate q id _ h4 rfl, ?_⟩
  rw [length_insert_candidate]
  split_ifs with hlt
  · rw [h2] at hlt
    push_cast
    omega
  · exact h5

theorem VisitedInv_exploreFold (dist : ℤ → ℚ) (w : ℤ) :
    ∀ (ns : List ℤ) (st : PriorityQueue × PriorityQueue × Finset ℤ),
      VisitedInv dist w st.2.1 →
      VisitedInv dist w (ns.foldl (exploreNeighbor dist w) st).2.1 := by
  intro ns
  induction ns with
  | nil => intro st h; exact h
  | cons n ns ih =>
    intro st h
    rw [List.foldl_cons]
    refine ih _ ?_
    unfold exploreNeighbor
    split_ifs with hmem
    · exact h
    · simp only []
      split_ifs with hcond
      · exact VisitedInv_insert dist w st.2.1 n h
      · exact h

theorem VisitedInv_searchLayerLoop (g : HNSWGraph) (dist : ℤ → ℚ)
    (layer w : ℤ) :
    ∀ (fuel : ℕ) (st : PriorityQueue × PriorityQueue × Finset ℤ),
      VisitedInv dist w st.2.1 →
      VisitedInv dist w (searchLayerLoop g dist layer w fuel st).2.1 := by
  intro fuel
  induction fuel with
  | zero => intro st h; exact h
  | succ fuel ih =>
    intro st h
    rw [searchLayerLoop]
    split_ifs with h0
    · exact h
    · simp only []
      split_ifs with hbreak hlay
      · exact h
      · exact ih _ (VisitedInv_exploreFold dist w _ _ h)
      · exact ih _ h

theorem search_layer_length_sorted (g : HNSWGraph) (query : Vector)
    (entry_point layer w : ℤ) (hw : 1 ≤ w) :
    ((search_layer g query entry_point layer w).length : ℤ) ≤ 2 * w ∧
    List.Pairwise (fun a b =>
      calculate_euclidean_distance query (g.original_vectors.getD a.toNat default) ≤
        calculate_euclidean_distance query (g.original_vectors.getD b.toNat default))
      (search_layer g query entry_point layer w) := by
  unfold search_layer
  simp only []
  have hbase : VisitedInv
      (fun id : ℤ =>
        calculate_euclidean_distance query (g.original_vectors.getD id.toNat default))
      w (insert_candidate (create_priority_queue (w * 2) true) entry_point
        (calculate_euclidean_distance query
          (g.original_vectors.getD entry_point.toNat default))) := by
    refine ⟨?_, ?_, ?_, ?_, ?_⟩
    · rw [insert_candidate_is_max_heap]; rfl
    · rw [insert_candidate_capacity]
      show w * 2 = 2 * w
      ring
    · exact isMaxHeap_insert_candidate _ _ _ rfl
        (fun k hk0 hklen => absurd hklen (by simp [create_priority_queue]))
    · exact PAll_insert_candidate _ _ _
        (fun k hk => absurd hk (by simp [create_priority_queue])) rfl
    · have hcap : (create_priority_queue (w * 2) true).capacity = w * 2 := rfl
      have hnil : (create_priority_queue (w * 2) true).candidates.length = 0 := rfl
      rw [length_insert_candidate]
      split_ifs with hlt
      · rw [hnil]
        omega
      · rw [hnil]
        omega
  have hfin := VisitedInv_searchLayerLoop g
    (fun id : ℤ =>
      calculate_euclidean_distance query (g.original_vectors.getD id.toNat default))
    layer w (totalConnectionCount g + 2)
    (insert_candidate (create_priority_queue w false) entry_point
      (calculate_euclidean_distance query
        (g.original_vectors.getD entry_point.toNat default)),
     insert_candidate (create_priority_queue (w * 2) true) entry_point
      (calculate_euclidean_distance query
        (g.original_vectors.getD entry_point.toNat default)),
     ({entry_point} : Finset ℤ)) hbase
  obtain ⟨hmax, hcap, hheap, hdok, hlen⟩ := hfin
  constructor
  · rw [List.length_map, length_drainAsc _ _ (le_refl _)]
    exact hlen
  · rw [List.pairwise_map]
    have hsorted := drainAsc_sorted _ _ (le_refl _) hmax hheap
    have hmem := mem_drainAsc
      (P := distOk (fun id : ℤ =>
        calculate_euclidean_distance query (g.original_vectors.getD id.toNat default)))
      _ _ (le_refl _) hdok
    refine List.Pairwise.imp_of_mem ?_ hsorted
    intro a b ha hb hab
    calc calculate_euclidean_distance query (g.original_vectors.getD a.node_id.toNat default)
        = a.distance := (hmem a ha).symm
      _ ≤ b.distance := hab
      _ = calculate_euclidean_distance query (g.original_vectors.getD b.node_id.toNat default) :=
          hmem b hb

/-! ### `build_hnsw_graph` (vector_search.c:210-357)

The braces of the C source place the `return graph;` of line 356 after the
insertion `for`-loop of line 236 (the loop body is lines 237-353), so every
node id `1..N-1` is processed before returning.  The same brace placement
ends the beam-search `while` of line 287 at line 311, so the connection
selection of lines 313-350 runs only after that loop has drained
`layer_candidates` to empty — the selection therefore never finds any
candidate and no connection is ever added. -/

/-- One step of the zoom-in scan (vector_search.c:250-271): starting from
the distance of the current search node, replace it by any strictly closer
neighbor found in a single pass over the neighbor list. -/
def zoomStep (nodes : List HNSWNode) (vectors : List Vector)
    (current_vector : Vector) (current_search_node : ℤ) (lay : ℤ) : ℤ :=
  let best_distance := calculate_euclidean_distance current_vector
    (vectors.getD current_search_node.toNat default)
  let search_node := nodes.getD current_search_node.toNat default
  if lay ≤ search_node.maximum_layer then
    ((search_node.layer_connections.getD lay.toNat []).foldl
      (fun st neighbor_id =>
        let neighbor_distance := calculate_euclidean_distance current_vector
          (vectors.getD neighbor_id.toNat default)
        if neighbor_distance < st.1 then (neighbor_distance, neighbor_id) else st)
      (best_distance, current_search_node)).2
  else current_search_node

/-- One iteration of the construction beam loop body over one neighbor
(vector_search.c:293-309): state `(layer_candidates, visited_nodes)`. -/
def constructionExplore (vectors : List Vector) (current_vector : Vector)
    (construction_search_width : ℤ)
    (st : PriorityQueue × PriorityQueue) (neighbor_id : ℤ) :
    PriorityQueue × PriorityQueue :=
  let neighbor_distance := calculate_euclidean_distance current_vector
    (vectors.getD neighbor_id.toNat default)
  if (st.2.candidates.length : ℤ) < construction_search_width ∨
      neighbor_distance < (candVal st.2.candidates 0).distance then
    (insert_candidate st.1 neighbor_id neighbor_distance,
     insert_candidate st.2 neighbor_id neighbor_distance)
  else st

/-- The `while (layer_candidates->size > 0)` loop of the builder
(vector_search.c:287-311), with explicit fuel.  Unlike `search_layer` this
loop has no visited flags, so for arbitrary adjacency contents the C loop
need not terminate; on every state arising in `build_hnsw_graph` all
neighbor lists are empty (theorem `build_hnsw_graph_eq_init` below), the
initial `layer_candidates` holds at most one element and the loop stops
within two checks, so any fuel of the shape `_ + 2` reproduces the C
behavior exactly. -/
def constructionBeam (nodes : List HNSWNode) (vectors : List Vector)
    (current_vector : Vector) (connection_layer construction_search_width : ℤ) :
    ℕ → PriorityQueue × PriorityQueue → PriorityQueue × PriorityQueue
  | 0, st => st
  | fuel + 1, st =>
    if st.1.candidates.length = 0 then st
    else
      let current := (extract_top_candidate st.1).1
      let cands := (extract_top_candidate st.1).2
      let candidate_node := nodes.getD current.node_id.toNat default
      let st2 := if connection_layer ≤ candidate_node.maximum_layer then
          (candidate_node.layer_connections.getD connection_layer.toNat []).foldl
            (constructionExplore vectors current_vector construction_search_width)
            (cands, st.2)
        else (cands, st.2)
      constructionBeam nodes vectors current_vector connection_layer
        construction_search_width fuel st2

/-- The candidate-array fill loop (vector_search.c:321-325): extract from
`layer_candidates` while it is non-empty and fewer than `max_conn` elements
have been taken. -/
def drainUpTo : ℕ → PriorityQueue → List SearchCandidate
  | 0, _ => []
  | n + 1, q =>
    if q.candidates.length = 0 then []
    else (extract_top_candidate q).1 :: drainUpTo n (extract_top_candidate q).2

/-- The unique-connection selection loop (vector_search.c:327-339). -/
def selectConnections (max_conn : ℕ) (candidates_array : List SearchCandidate) :
    List ℤ :=
  candidates_array.foldl
    (fun sel c =>
      if sel.length < max_conn ∧ c.node_id ∉ sel then sel ++ [c.node_id] else sel)
    []

/-- The bidirectional linking loop (vector_search.c:341-345). -/
def addBidirectional (nodes : List HNSWNode) (connection_layer : ℤ)
    (current_node_id : ℤ) (selected : List ℤ) : List HNSWNode :=
  selected.foldl
    (fun ns sel =>
      let ns1 := ns.set current_node_id.toNat
        (add_connection_to_node (ns.getD current_node_id.toNat default)
          connection_layer sel)
      ns1.set sel.toNat
        (add_connection_to_node (ns1.getD sel.toNat default)
          connection_layer current_node_id))
    nodes

/-- The body of the connection-layer loop (vector_search.c:275-351) for one
layer: beam search, candidate selection, bidirectional linking.  The unused
`closest_candidates` queue (created line 241, freed line 353 without ever
being read) is not modelled. -/
def insertAtLayer (vectors : List Vector)
    (construction_search_width max_connections max_connections_layer_zero : ℤ)
    (current_node_id current_search_node : ℤ)
    (nodes : List HNSWNode) (connection_layer : ℤ) : List HNSWNode :=
  let current_vector := vectors.getD current_node_id.toNat default
  let d0 := calculate_euclidean_distance current_vector
    (vectors.getD current_search_node.toNat default)
  let st0 := (insert_candidate (create_priority_queue construction_search_width false)
      current_search_node d0,
    insert_candidate (create_priority_queue (construction_search_width * 2) true)
      current_search_node d0)
  let res := constructionBeam nodes vectors current_vector connection_layer
    construction_search_width (construction_search_width.toNat * 2 + 2) st0
  let max_conn := if connection_layer = 0 then max_connections_layer_zero
    else max_connections
  let candidates_array := drainUpTo max_conn.toNat res.1
  let selected := selectConnections max_conn.toNat candidates_array
  addBidirectional nodes connection_layer current_node_id selected

/-- Descending layer sequence `hi, hi-1, ..., hi-(count-1)`. -/
def descLayers (hi : ℤ) (count : ℕ) : List ℤ :=
  (List.range count).map (fun k => hi - (k : ℤ))

/-- One iteration of the insertion loop (vector_search.c:236-353): zoom-in
from the entry point down to the node's top layer, then search and connect
at each layer from the node's top layer down to 0. -/
def insertNode (g : HNSWGraph) (current_node_id : ℕ) : HNSWGraph :=
  let current_node := g.nodes.getD current_node_id default
  let current_vector := g.original_vectors.getD current_node_id default
  let current_search_node := (descLayers g.maximum_layer_in_graph
      (g.maximum_layer_in_graph - current_node.maximum_layer).toNat).foldl
    (zoomStep g.nodes g.original_vectors current_vector)
    g.entry_point_node_id
  let nodes2 := (descLayers current_node.maximum_layer
      (current_node.maximum_layer + 1).toNat).foldl
    (insertAtLayer g.original_vectors g.construction_search_width
      g.max_connections_per_node g.max_connections_layer_zero
      (current_node_id : ℤ) current_search_node)
    g.nodes
  { g with nodes := nodes2 }

/-- Phase 1 of `build_hnsw_graph` (vector_search.c:213-233): allocate the
graph, sample a layer for every node (`levels` oracle), track the running
maximum layer and its first attaining node as entry point. -/
def buildInitGraph (levels : ℕ → ℕ) (vectors : List Vector) (vector_count : ℤ)
    (max_connections max_connections_layer_zero : ℤ) (level_factor : ℚ)
    (construction_search_width : ℤ) : HNSWGraph :=
  let init := (List.range vector_count.toNat).foldl
    (fun st i =>
      let node_layer : ℤ := (levels i : ℤ)
      let nodes2 := st.1 ++ [create_hnsw_node (i : ℤ) node_layer]
      if st.2.1 < node_layer then (nodes2, node_layer, (i : ℤ))
      else (nodes2, st.2.1, st.2.2))
    ([], 0, 0)
  ⟨init.1, vectors, vector_count, init.2.2, init.2.1, max_connections,
    max_connections_layer_zero, level_factor, construction_search_width⟩

/-- Fuel-driven core of `insertLoop`, structurally recursive so concrete
instances reduce inside the kernel.  `insertLoop` passes fuel `n - i`, which
always suffices because `i` increases towards `n`. -/
def insertLoopGo : ℕ → HNSWGraph → ℕ → ℕ → HNSWGraph
  | 0, g, _, _ => g
  | fuel + 1, g, i, n => if i < n then insertLoopGo fuel (insertNode g i) (i + 1) n else g

/-- The insertion loop `for (current_node_id = 1; current_node_id <
vector_count; current_node_id++)` (vector_search.c:236). -/
def insertLoop (g : HNSWGraph) (i n : ℕ) : HNSWGraph :=
  insertLoopGo (n - i) g i n

theorem insertLoopGo_congr :
    ∀ (f₁ f₂ i n : ℕ) (g : HNSWGraph), n - i ≤ f₁ → n - i ≤ f₂ →
      insertLoopGo f₁ g i n = insertLoopGo f₂ g i n := by
  intro f₁
  induction f₁ with
  | zero =>
    intro f₂ i n g h₁ h₂
    cases f₂ with
    | zero => rfl
    | succ g₂ =>
      show _ = insertLoopGo (g₂ + 1) g i n
      simp only [insertLoopGo]
      rw [if_neg (by omega)]
  | succ g₁ ih =>
    intro f₂ i n g h₁ h₂
    cases f₂ with
    | zero =>
      simp only [insertLoopGo]
      rw [if_neg (by omega)]
    | succ g₂ =>
      simp only [insertLoopGo]
      split_ifs with hin
      · exact ih g₂ _ _ _ (by omega) (by omega)
      · rfl

/-- The defining recursion of `insertLoop`, mirroring the shape of the C
loop body. -/
theorem insertLoop_eq (g : HNSWGraph) (i n : ℕ) :
    insertLoop g i n = if i < n then insertLoop (insertNode g i) (i + 1) n else g := by
  simp only [insertLoop]
  rcases Nat.eq_zero_or_pos (n - i) with h0 | hpos
  · rw [h0]
    rw [if_neg (by omega)]
    rfl
  · obtain ⟨f, hf⟩ : ∃ f, n - i = f + 1 := ⟨n - i - 1, by omega⟩
    rw [hf]
    simp only [insertLoopGo]
    rw [if_pos (by omega), if_pos (by omega)]
    exact insertLoopGo_congr f (n - (i + 1)) _ _ _ (by omega) (by omega)

/-- `build_hnsw_graph` (vector_search.c:210-357): phase 1, then the
insertion loop over ids `1..N-1`, then return. -/
def build_hnsw_graph (levels : ℕ → ℕ) (vectors : List Vector) (vector_count : ℤ)
    (max_connections max_connections_layer_zero : ℤ) (level_factor : ℚ)
    (construction_search_width : ℤ) : HNSWGraph :=
  insertLoop
    (buildInitGraph levels vectors vector_count max_connections
      max_connections_layer_zero level_factor construction_search_width)
    1 vector_count.toNat

/-! ### The built graph has no edges

Because the selection loop (vector_search.c:321-325) runs only after the
`while` of line 287 has emptied `layer_candidates`, no connection is ever
selected and the insertion loop leaves every neighbor list empty. -/

/-- Every neighbor list of every node is empty. -/
def nodesAllEmpty (nodes : List HNSWNode) : Prop :=
  ∀ nd ∈ nodes, ∀ l ∈ nd.layer_connections, l = []

theorem connsEmpty {nodes : List HNSWNode} (h : nodesAllEmpty nodes)
    (i lay : ℕ) : (nodes.getD i default).layer_connections.getD lay [] = [] := by
  by_cases hi : i < nodes.length
  · have hmem : nodes.getD i default ∈ nodes := by
      rw [List.getD_eq_getElem _ _ hi]
      exact List.getElem_mem _
    by_cases hl : lay < (nodes.getD i default).layer_connections.length
    · have hmem2 : (nodes.getD i default).layer_connections.getD lay [] ∈
          (nodes.getD i default).layer_connections := by
        rw [List.getD_eq_getElem _ _ hl]
        exact List.getElem_mem _
      exact h _ hmem _ hmem2
    · exact List.getD_eq_default _ _ (show (nodes.getD i default).layer_connections.length ≤ lay by omega)
  · rw [List.getD_eq_default nodes _ (show nodes.length ≤ i by omega)]
    rfl

theorem constructionBeam_stop (nodes : List HNSWNode) (vectors : List Vector)
    (cv : Vector) (lay csw : ℤ) (n : ℕ) (st : PriorityQueue × PriorityQueue)
    (h0 : st.1.candidates.length = 0) :
    constructionBeam nodes vectors cv lay csw (n + 1) st = st := by
  simp [constructionBeam, h0]

theorem constructionBeam_empty (nodes : List HNSWNode) (vectors : List Vector)
    (cv : Vector) (lay csw : ℤ) (n : ℕ) (st : PriorityQueue × PriorityQueue)
    (h : nodesAllEmpty nodes) (hlen : st.1.candidates.length ≤ 1) :
    (constructionBeam nodes vectors cv lay csw (n + 2) st).1.candidates.length = 0 := by
  rcases Nat.lt_or_ge st.1.candidates.length 1 with h1 | h1
  · have h0 : st.1.candidates.length = 0 := by omega
    rw [constructionBeam_stop _ _ _ _ _ _ _ h0]
    exact h0
  · have h1' : st.1.candidates.length = 1 := by omega
    show (constructionBeam nodes vectors cv lay csw (n + 1 + 1) st).1.candidates.length = 0
    rw [constructionBeam]
    split_ifs with hc
    · omega
    · simp only []
      have hex : (extract_top_candidate st.1).2.candidates.length = 0 := by
        rw [length_extract_top_candidate]
        omega
      have hconns : ((nodes.getD (extract_top_candidate st.1).1.node_id.toNat
          default).layer_connections.getD lay.toNat []) = [] :=
        connsEmpty h _ _
      rw [hconns]
      split_ifs with hlay
      · rw [List.foldl_nil, constructionBeam_stop _ _ _ _ _ _ _ hex]
        exact hex
      · rw [constructionBeam_stop _ _ _ _ _ _ _ hex]
        exact hex

theorem drainUpTo_nil (n : ℕ) (q : PriorityQueue)
    (h : q.candidates.length = 0) : drainUpTo n q = [] := by
  cases n with
  | zero => rfl
  | succ n => simp [drainUpTo, h]

theorem insertAtLayer_empty (vectors : List Vector) (csw mc mc0 cid csn : ℤ)
    (nodes : List HNSWNode) (lay : ℤ) (h : nodesAllEmpty nodes) :
    insertAtLayer vectors csw mc mc0 cid csn nodes lay = nodes := by
  unfold insertAtLayer
  simp only []
  have hst0 : (insert_candidate (create_priority_queue csw false) csn
      (calculate_euclidean_distance (vectors.getD cid.toNat default)
        (vectors.getD csn.toNat default))).candidates.length ≤ 1 := by
    rw [length_insert_candidate]
    split_ifs <;> simp [create_priority_queue]
  have hbeam := constructionBeam_empty nodes vectors
    (vectors.getD cid.toNat default) lay csw (csw.toNat * 2)
    (insert_candidate (create_priority_queue csw false) csn
      (calculate_euclidean_distance (vectors.getD cid.toNat default)
        (vectors.getD csn.toNat default)),
     insert_candidate (create_priority_queue (csw * 2) true) csn
      (calculate_euclidean_distance (vectors.getD cid.toNat default)
        (vectors.getD csn.toNat default))) h hst0
  rw [drainUpTo_nil _ _ hbeam]
  rfl

theorem foldl_insertAtLayer_empty (vectors : List Vector)
    (csw mc mc0 cid csn : ℤ) :
    ∀ (ls : List ℤ) (nodes : List HNSWNode), nodesAllEmpty nodes →
      ls.foldl (insertAtLayer vectors csw mc mc0 cid csn) nodes = nodes := by
  intro ls
  induction ls with
  | nil => intro nodes _; rfl
  | cons l ls ih =>
    intro nodes h
    rw [List.foldl_cons, insertAtLayer_empty _ _ _ _ _ _ _ _ h, ih _ h]

theorem insertNode_empty (g : HNSWGraph) (i : ℕ)
    (h : nodesAllEmpty g.nodes) : insertNode g i = g := by
  unfold insertNode
  simp only []
  rw [foldl_insertAtLayer_empty _ _ _ _ _ _ _ _ h]

theorem insertLoop_empty : ∀ (k : ℕ) (g : HNSWGraph) (i n : ℕ), n - i ≤ k →
    nodesAllEmpty g.nodes → insertLoop g i n = g := by
  intro k
  induction k with
  | zero =>
    intro g i n hk h
    rw [insertLoop_eq]
    split_ifs with hin
    · omega
    · rfl
  | succ k ih =>
    intro g i n hk h
    rw [insertLoop_eq]
    split_ifs with hin
    · rw [insertNode_empty g i h]
      exact ih g (i + 1) n (by omega) h
    · rfl

theorem buildInitGraph_empty (levels : ℕ → ℕ) (vectors : List Vector)
    (vector_count mc mc0 : ℤ) (lf : ℚ) (csw : ℤ) :
    nodesAllEmpty (buildInitGraph levels vectors vector_count mc mc0 lf csw).nodes := by
  unfold buildInitGraph
  simp only []
  have key : ∀ (is : List ℕ) (st : List HNSWNode × ℤ × ℤ), nodesAllEmpty st.1 →
      nodesAllEmpty ((is.foldl
        (fun st i =>
          let node_layer : ℤ := (levels i : ℤ)
          let nodes2 := st.1 ++ [create_hnsw_node (i : ℤ) node_layer]
          if st.2.1 < node_layer then (nodes2, node_layer, (i : ℤ))
          else (nodes2, st.2.1, st.2.2))
        st).1) := by
    intro is
    induction is with
    | nil => intro st h; exact h
    | cons i is ih =>
      intro st h
      rw [List.foldl_cons]
      have happ : nodesAllEmpty (st.1 ++ [create_hnsw_node (i : ℤ) (levels i : ℤ)]) := by
        intro nd hnd l hl
        rw [List.mem_append] at hnd
        rcases hnd with hnd | hnd
        · exact h nd hnd l hl
        · rw [List.mem_singleton] at hnd
          subst hnd
          simp only [create_hnsw_node] at hl
          exact List.eq_of_mem_replicate hl
      refine ih _ ?_
      simp only []
      split_ifs <;> exact happ
  exact key _ _ (by intro nd hnd; simp at hnd)

/-- The insertion loop never adds an edge: the built graph equals its
phase-1 initialization. -/
theorem build_hnsw_graph_eq_init (levels : ℕ → ℕ) (vectors : List Vector)
    (vector_count mc mc0 : ℤ) (lf : ℚ) (csw : ℤ) :
    build_hnsw_graph levels vectors vector_count mc mc0 lf csw =
      buildInitGraph levels vectors vector_count mc mc0 lf csw := by
  unfold build_hnsw_graph
  exact insertLoop_empty vector_count.toNat _ 1 vector_count.toNat (by omega)
    (buildInitGraph_empty levels vectors vector_count mc mc0 lf csw)

/-- Every neighbor list of the built graph is empty. -/
theorem build_hnsw_graph_conns_empty (levels : ℕ → ℕ) (vectors : List Vector)
    (vector_count mc mc0 : ℤ) (lf : ℚ) (csw : ℤ) (i lay : ℕ) :
    ((build_hnsw_graph levels vectors vector_count mc mc0 lf
        csw).nodes.getD i default).layer_connections.getD lay [] = [] := by
  rw [build_hnsw_graph_eq_init]
  exact connsEmpty (buildInitGraph_empty levels vectors vector_count mc mc0 lf csw) i lay

/-- The insertion loop is the fold of `insertNode` over all ids `i..n-1`. -/
theorem insertLoop_eq_foldl : ∀ (k i : ℕ) (g : HNSWGraph) (n : ℕ), n - i ≤ k →
    insertLoop g i n = (List.range' i (n - i)).foldl insertNode g := by
  intro k
  induction k with
  | zero =>
    intro i g n hk
    rw [insertLoop_eq]
    split_ifs with hin
    · omega
    · have : n - i = 0 := by omega
      rw [this]
      rfl
  | succ k ih =>
    intro i g n hk
    rw [insertLoop_eq]
    split_ifs with hin
    · have hni : n - i = (n - (i + 1)) + 1 := by omega
      rw [hni, List.range'_succ, List.foldl_cons]
      exact ih (i + 1) (insertNode g i) n (by omega)
    · have : n - i = 0 := by omega
      rw [this]
      rfl

/-! ### Query entry points (vector_search.c:426-524) -/

/-- `hnsw_knn_search` (vector_search.c:426-458).  NULL pointers are modelled
by `Option`; the function returns `none` exactly when `index->hnsw_graph`
is NULL. -/
def hnsw_knn_search (index : VectorIndex) (query : Vector) (k : ℤ)
    (search_config : Option SearchConfig) : Option (List ℤ) :=
  match index.hnsw_graph with
  | none => none
  | some graph =>
    let search_width := match search_config with
      | some config => config.search_width
      | none => k * 2
    let descent := (descLayers graph.maximum_layer_in_graph
        graph.maximum_layer_in_graph.toNat).foldl
      (fun current_closest layer =>
        let layer_results := search_layer graph query current_closest layer 1
        if 0 < layer_results.length then layer_results.getD 0 0 else current_closest)
      graph.entry_point_node_id
    let all_candidates := search_layer graph query descent 0 search_width
    let return_count := if (all_candidates.length : ℤ) < k then
        (all_candidates.length : ℤ) else k
    some (all_candidates.take return_count.toNat)

/-- `approximate_search` (vector_search.c:460-468). -/
def approximate_search (index : VectorIndex) (query : Vector) (k : ℤ)
    (search_width : ℤ) : Option (List ℤ) :=
  hnsw_knn_search index query k
    (some ⟨search_width, search_width * 10, 9 / 10, true⟩)

/-- `beam_search` (vector_search.c:470-478). -/
def beam_search (index : VectorIndex) (query : Vector) (k : ℤ)
    (beam_width : ℤ) : Option (List ℤ) :=
  hnsw_knn_search index query k
    (some ⟨beam_width, beam_width * 5, 95 / 100, false⟩)

/-- The inner insertion scan of brute-force `knn_search`
(vector_search.c:508-519): find the first position whose stored distance
strictly exceeds the new distance, shift the tail right (dropping the last
entry) and insert there.  The two parallel C arrays `distances`/`neighbors`
are modelled as one list of pairs. -/
def knnInsert (c : ℚ × ℤ) : List (ℚ × ℤ) → List (ℚ × ℤ)
  | [] => []
  | x :: xs => if c.1 < x.1 then c :: (x :: xs).dropLast else x :: knnInsert c xs

/-- `knn_search` (vector_search.c:484-524).  The HNSW branch delegates to
`hnsw_knn_search`; the brute-force branch starts from `k` sentinel entries
`(FLT_MAX, -1)` and insertion-sorts every stored vector's distance.  The C
function always returns a non-NULL buffer in the brute-force branch, hence
`some`. -/
def knn_search (index : VectorIndex) (query : Vector) (k : ℤ) :
    Option (List ℤ) :=
  if index.use_hnsw_optimization = true ∧ index.hnsw_graph.isSome then
    hnsw_knn_search index query k (some ⟨k * 4, (2 ^ 31 - 1 : ℤ), 1, false⟩)
  else
    let init : List (ℚ × ℤ) := List.replicate k.toNat (FLT_MAX, -1)
    let final := (List.range index.len.toNat).foldl
      (fun st vector_index =>
        knnInsert
          (calculate_euclidean_distance query (index.vectors.getD vector_index default),
            (vector_index : ℤ)) st)
      init
    some (final.map Prod.snd)

/-- One truncated bubble pass (vector_search.c:575-585): compare and swap
adjacent pairs at positions `0..m-1`, moving the smallest similarity right. -/
def bubblePassUpTo : ℕ → List (ℚ × ℤ) → List (ℚ × ℤ)
  | _, [] => []
  | 0, l => l
  | m + 1, x :: xs =>
    match xs with
    | [] => [x]
    | y :: t =>
      if x.1 < y.1 then y :: bubblePassUpTo m (x :: t)
      else x :: bubblePassUpTo m (y :: t)

/-- The bubble sort of matches by descending similarity
(vector_search.c:573-586): `count-1` passes, pass `i` comparing positions
`0..count-2-i`. -/
def bubbleSortDesc (count : ℕ) (l : List (ℚ × ℤ)) : List (ℚ × ℤ) :=
  (List.range (count - 1)).foldl (fun acc i => bubblePassUpTo (count - 1 - i) acc) l

/-- `brute_force_knn_search` (vector_search.c:527-603): cosine similarity
with threshold.  The NULL-able pointer arguments `vectors`, `query` and the
`out_count` out-parameter are modelled by `Option` (the `int` `out_count`
receives is the length of the returned list).  Returns `none` exactly on
the C argument validation failure of vector_search.c:528. -/
def brute_force_knn_search (vectors : Option (List Vector)) (len : ℤ)
    (query : Option Vector) (k : ℤ) (similarity_threshold : ℚ)
    (out_count : Option Unit) : Option (List ℤ) :=
  match vectors, query, out_count with
  | some vectors, some query, some _ =>
    if len ≤ 0 ∨ k ≤ 0 then none
    else
      let found := (List.range len.toNat).foldl
        (fun acc i =>
          let v := vectors.getD i default
          let sums := (List.range v.len.toNat).foldl
            (fun s j =>
              let a := v.data.getD j 0
              let b := query.data.getD j 0
              (s.1 + a * b, s.2.1 + a * a, s.2.2 + b * b))
            (0, 0, 0)
          if sums.2.1 = 0 ∨ sums.2.2 = 0 then acc
          else
            let similarity := sums.1 / (ratSqrt sums.2.1 * ratSqrt sums.2.2)
            if similarity_threshold ≤ similarity then acc ++ [(similarity, (i : ℤ))]
            else acc)
        []
      let sorted := bubbleSortDesc found.length found
      some ((sorted.take k.toNat).map Prod.snd)
  | _, _, _ => none


/-! ### Serialization (vector_search.c:634-704) and deserialization
(vector_search.c:715-819)

The byte buffer is modelled as a list of C `int`s: the C code writes and
reads whole `int`s only, and all its size checks are in multiples of
`sizeof(int)`, so a buffer of `size` bytes corresponds to a list of
`size / 4` ints. -/

/-- The record serialize writes for one node (vector_search.c:674-699):
`maximum_layer`, the connection-count array, then per layer the repeated
count followed by the connection ids.  Arrays are indexed `0..maximum_layer`
as in the C loops. -/
def serializeNode (node : HNSWNode) : List ℤ :=
  node.maximum_layer ::
    ((List.range (node.maximum_layer.toNat + 1)).map
      (fun layer => ((node.layer_connections.getD layer []).length : ℤ)) ++
     ((List.range (node.maximum_layer.toNat + 1)).map
      (fun layer => ((node.layer_connections.getD layer []).length : ℤ) ::
        node.layer_connections.getD layer [])).flatten)

/-- `serialize_hnsw_graph` (vector_search.c:634-704): `node_count` followed
by each node's record.  The NULL-argument and malloc-failure paths (which
return 0 without producing a buffer) are not modelled. -/
def serialize_hnsw_graph (graph : HNSWGraph) : List ℤ :=
  graph.node_count ::
    ((List.range graph.node_count.toNat).map
      (fun i => serializeNode (graph.nodes.getD i default))).flatten

/-- Read one `int`, failing when the remaining size is short
(the C checks `size < (int)sizeof(int)`). -/
def readInt : List ℤ → Option (ℤ × List ℤ)
  | [] => none
  | x :: rest => some (x, rest)

/-- The connection-count array read loop (vector_search.c:773-782). -/
def readInts : ℕ → List ℤ → Option (List ℤ × List ℤ)
  | 0, l => some ([], l)
  | n + 1, l =>
    match readInt l with
    | none => none
    | some (x, rest) =>
      match readInts n rest with
      | none => none
      | some (xs, rest2) => some (x :: xs, rest2)

/-- The per-layer connection read loop (vector_search.c:785-815): read the
repeated count, fail on mismatch with the counts array, fail when fewer
than `conn_count` ints remain, else read the ids.  A negative repeated
count equal to the stored count reads zero ids here; in C it additionally
corrupts the running `size` (UB territory not reachable from any claim). -/
def parseLayers : List ℤ → List ℤ → Option (List (List ℤ) × List ℤ)
  | [], l => some ([], l)
  | c :: cs, l =>
    match readInt l with
    | none => none
    | some (conn_count, rest) =>
      if conn_count ≠ c then none
      else if (rest.length : ℤ) < conn_count then none
      else
        match parseLayers cs (rest.drop conn_count.toNat) with
        | none => none
        | some (ls, rest2) => some (rest.take conn_count.toNat :: ls, rest2)

/-- One node's record parse (vector_search.c:744-815): `maximum_layer`
(failing when negative), the counts array, the per-layer data.
`vector_id` is 0 because the C `calloc` zeroes the node array. -/
def parseNode (l : List ℤ) : Option (HNSWNode × List ℤ) :=
  match readInt l with
  | none => none
  | some (maximum_layer, rest) =>
    if maximum_layer < 0 then none
    else
      match readInts (maximum_layer.toNat + 1) rest with
      | none => none
      | some (_counts, rest2) =>
        match parseLayers _counts rest2 with
        | none => none
        | some (conns, rest3) => some (⟨0, maximum_layer, conns⟩, rest3)

/-- The node loop of deserialization (vector_search.c:744). -/
def parseNodes : ℕ → List ℤ → Option (List HNSWNode × List ℤ)
  | 0, l => some ([], l)
  | n + 1, l =>
    match parseNode l with
    | none => none
    | some (nd, rest) =>
      match parseNodes n rest with
      | none => none
      | some (nds, rest2) => some (nd :: nds, rest2)

/-- `deserialize_hnsw_graph` (vector_search.c:715-819).  A negative
`node_count` makes the C `calloc` fail (the count is converted to a huge
`size_t`), which frees the graph and returns NULL; trailing data after the
last node is ignored, as in C.  The graph-wide fields other than
`node_count` and `nodes` are left uninitialized by the C code and are
modelled as zeros. -/
def deserialize_hnsw_graph (buffer : List ℤ) : Option HNSWGraph :=
  if buffer.length = 0 then none
  else
    match readInt buffer with
    | none => none
    | some (node_count, rest) =>
      if node_count < 0 then none
      else
        match parseNodes node_count.toNat rest with
        | none => none
        | some (nds, _) => some ⟨nds, [], node_count, 0, 0, 0, 0, 0, 0⟩

/-! ### Round-trip lemmas -/

/-- Well-formedness of a node as produced by every code path of the C file:
a non-negative top layer and one neighbor list per layer `0..top_layer`. -/
def WFNode (node : HNSWNode) : Prop :=
  0 ≤ node.maximum_layer ∧
    node.layer_connections.length = node.maximum_layer.toNat + 1

/-- Well-formedness of a graph for serialization: consistent node count and
well-formed nodes. -/
def WFGraph (g : HNSWGraph) : Prop :=
  0 ≤ g.node_count ∧ g.nodes.length = g.node_count.toNat ∧
    ∀ nd ∈ g.nodes, WFNode nd

/-- The node a successful parse reconstructs: `vector_id` is zeroed, the
topology is kept. -/
def stripNode (node : HNSWNode) : HNSWNode :=
  ⟨0, node.maximum_layer, node.layer_connections⟩

theorem range_map_getD {α β : Type _} (l : List α) (d : α) (f : α → β) :
    (List.range l.length).map (fun i => f (l.getD i d)) = l.map f := by
  refine List.ext_getElem (by simp) ?_
  intro i h1 h2
  simp only [List.getElem_map, List.getElem_range]
  rw [List.getD_eq_getElem _ _ (by simpa using h2)]

theorem serializeNode_eq (node : HNSWNode) (h : WFNode node) :
    serializeNode node = node.maximum_layer ::
      (node.layer_connections.map (fun c => (c.length : ℤ)) ++
       (node.layer_connections.map
         (fun c => ((c.length : ℤ) :: c))).flatten) := by
  unfold serializeNode
  rw [← h.2, range_map_getD node.layer_connections [] (fun c => (c.length : ℤ)),
    range_map_getD node.layer_connections [] (fun c => ((c.length : ℤ) :: c))]

theorem readInts_append (xs rest : List ℤ) :
    readInts xs.length (xs ++ rest) = some (xs, rest) := by
  induction xs with
  | nil => rfl
  | cons x xs ih =>
    simp only [List.length_cons, List.cons_append, readInts, readInt, ih]

theorem readInts_short : ∀ (n : ℕ) (l : List ℤ), l.length < n →
    readInts n l = none := by
  intro n
  induction n with
  | zero => intro l h; omega
  | succ n ih =>
    intro l h
    cases l with
    | nil => rfl
    | cons x rest =>
      simp only [readInts, readInt]
      rw [ih rest (by simpa using h)]

theorem parseLayers_rt (conns : List (List ℤ)) (rest : List ℤ) :
    parseLayers (conns.map (fun c => (c.length : ℤ)))
      ((conns.map (fun c => ((c.length : ℤ) :: c))).flatten ++ rest) =
      some (conns, rest) := by
  induction conns generalizing rest with
  | nil => rfl
  | cons c cs ih =>
    simp only [List.map_cons, List.flatten_cons, parseLayers, readInt,
      List.cons_append, List.append_assoc]
    rw [if_neg (by simp)]
    have hlen : ¬ (((c ++ ((cs.map (fun c => ((c.length : ℤ) :: c))).flatten ++
        rest)).length : ℤ) < (c.length : ℤ)) := by
      simp only [List.length_append]
      push_cast
      omega
    rw [if_neg hlen]
    have htoNat : ((c.length : ℤ)).toNat = c.length := Int.toNat_natCast _
    rw [htoNat, List.drop_left c _, ih rest, List.take_left c _]

theorem parseNode_rt (node : HNSWNode) (h : WFNode node) (rest : List ℤ) :
    parseNode (serializeNode node ++ rest) = some (stripNode node, rest) := by
  rw [serializeNode_eq node h]
  simp only [parseNode, List.cons_append, readInt]
  rw [if_neg (by have := h.1; omega)]
  have hcl : (node.layer_connections.map (fun c => (c.length : ℤ))).length =
      node.maximum_layer.toNat + 1 := by
    rw [List.length_map, h.2]
  rw [← hcl, List.append_assoc, readInts_append]
  simp only []
  rw [parseLayers_rt]
  rfl

theorem parseNodes_rt (nds : List HNSWNode) (h : ∀ nd ∈ nds, WFNode nd)
    (rest : List ℤ) :
    parseNodes nds.length ((nds.map serializeNode).flatten ++ rest) =
      some (nds.map stripNode, rest) := by
  induction nds generalizing rest with
  | nil => rfl
  | cons nd nds ih =>
    simp only [List.map_cons, List.flatten_cons, List.length_cons, parseNodes,
      List.append_assoc]
    rw [parseNode_rt nd (h nd (by simp)) _]
    simp only []
    rw [ih (fun x hx => h x (by simp [hx])) rest]

/-- Successful round trip: deserializing a serialized well-formed graph
reconstructs the node count and every node's topology (with `vector_id`
zeroed and the unserialized graph-wide fields defaulted). -/
theorem deserialize_serialize (g : HNSWGraph) (h : WFGraph g) :
    deserialize_hnsw_graph (serialize_hnsw_graph g) =
      some ⟨g.nodes.map stripNode, [], g.node_count, 0, 0, 0, 0, 0, 0⟩ := by
  obtain ⟨h0, hlen, hwf⟩ := h
  unfold serialize_hnsw_graph deserialize_hnsw_graph
  rw [if_neg (by simp)]
  simp only [readInt]
  rw [if_neg (by omega)]
  have hmap : (List.range g.node_count.toNat).map
      (fun i => serializeNode (g.nodes.getD i default)) =
      g.nodes.map serializeNode := by
    rw [← hlen]
    exact range_map_getD g.nodes default serializeNode
  rw [hmap, ← hlen]
  have := parseNodes_rt g.nodes hwf []
  rw [List.append_nil] at this
  rw [this]

/-! ### Corrupted-stream lemmas -/

/-- The per-layer blocks of a node record with the repeated count of layer
`l` replaced by `v`. -/
def flipBlocks (v : ℤ) : List (List ℤ) → ℕ → List (List ℤ)
  | [], _ => []
  | c :: cs, 0 => (v :: c) :: cs.map (fun c2 => ((c2.length : ℤ) :: c2))
  | c :: cs, l + 1 => ((c.length : ℤ) :: c) :: flipBlocks v cs l

/-- Flipping restores the original blocks when `v` is the true count. -/
theorem flipBlocks_id (conns : List (List ℤ)) :
    ∀ (l : ℕ), l < conns.length →
      flipBlocks ((conns.getD l []).length : ℤ) conns l =
        conns.map (fun c => ((c.length : ℤ) :: c)) := by
  induction conns with
  | nil => intro l hl; simp at hl
  | cons c cs ih =>
    intro l hl
    cases l with
    | zero => rfl
    | succ l =>
      show ((c.length : ℤ) :: c) :: flipBlocks _ cs l = _
      rw [List.map_cons]
      have : (c :: cs).getD (l + 1) [] = cs.getD l [] := rfl
      rw [this, ih l (by simpa using hl)]

theorem parseLayers_flip (v : ℤ) :
    ∀ (conns : List (List ℤ)) (l : ℕ) (tail : List ℤ), l < conns.length →
      v ≠ ((conns.getD l []).length : ℤ) →
      parseLayers (conns.map (fun c => (c.length : ℤ)))
        ((flipBlocks v conns l).flatten ++ tail) = none := by
  intro conns
  induction conns with
  | nil => intro l tail hl; simp at hl
  | cons c cs ih =>
    intro l tail hl hv
    cases l with
    | zero =>
      show parseLayers ((c.length : ℤ) :: cs.map _) (((v :: c) :: _).flatten ++ tail) = none
      simp only [List.flatten_cons, List.cons_append, parseLayers, readInt,
        List.append_assoc]
      rw [if_pos (by exact hv)]
    | succ l =>
      show parseLayers ((c.length : ℤ) :: cs.map _)
        ((((c.length : ℤ) :: c) :: flipBlocks v cs l).flatten ++ tail) = none
      simp only [List.flatten_cons, List.cons_append, parseLayers, readInt,
        List.append_assoc]
      rw [if_neg (by simp)]
      have hlen : ¬ (((c ++ ((flipBlocks v cs l).flatten ++ tail)).length : ℤ) <
          (c.length : ℤ)) := by
        simp only [List.length_append]
        push_cast
        omega
      rw [if_neg hlen]
      have htoNat : ((c.length : ℤ)).toNat = c.length := Int.toNat_natCast _
      rw [htoNat, List.drop_left c _,
        ih l tail (by simpa using hl) (by simpa using hv)]

/-- The record of node `node` with the repeated count of layer `l` replaced
by `v` (in the layout `serialize_hnsw_graph` writes for a well-formed
node). -/
def serializeNodeFlip (node : HNSWNode) (l : ℕ) (v : ℤ) : List ℤ :=
  node.maximum_layer ::
    (node.layer_connections.map (fun c => (c.length : ℤ)) ++
     (flipBlocks v node.layer_connections l).flatten)

theorem serializeNodeFlip_id (node : HNSWNode) (h : WFNode node) (l : ℕ)
    (hl : l < node.layer_connections.length) :
    serializeNodeFlip node l ((node.layer_connections.getD l []).length : ℤ) =
      serializeNode node := by
  rw [serializeNode_eq node h]
  unfold serializeNodeFlip
  rw [flipBlocks_id node.layer_connections l hl]

theorem parseNode_flip (node : HNSWNode) (h : WFNode node) (l : ℕ) (v : ℤ)
    (hl : l < node.layer_connections.length)
    (hv : v ≠ ((node.layer_connections.getD l []).length : ℤ)) (rest : List ℤ) :
    parseNode (serializeNodeFlip node l v ++ rest) = none := by
  unfold serializeNodeFlip
  simp only [parseNode, List.cons_append, readInt]
  rw [if_neg (by have := h.1; omega)]
  have hcl : (node.layer_connections.map (fun c => (c.length : ℤ))).length =
      node.maximum_layer.toNat + 1 := by
    rw [List.length_map, h.2]
  rw [← hcl, List.append_assoc, readInts_append]
  simp only []
  rw [parseLayers_flip v node.layer_connections l rest hl hv]

/-- The record of `node` with its `maximum_layer` field replaced by `v`. -/
def serializeNodeNegTop (node : HNSWNode) (v : ℤ) : List ℤ :=
  v :: (node.layer_connections.map (fun c => (c.length : ℤ)) ++
    (node.layer_connections.map (fun c => ((c.length : ℤ) :: c))).flatten)

theorem serializeNodeNegTop_id (node : HNSWNode) (h : WFNode node) :
    serializeNodeNegTop node node.maximum_layer = serializeNode node := by
  rw [serializeNode_eq node h]
  rfl

theorem parseNode_neg (v : ℤ) (hv : v < 0) (rest : List ℤ) :
    parseNode (v :: rest) = none := by
  simp only [parseNode, readInt]
  rw [if_pos hv]

/-- Parsing fails when the record of node `i` is replaced by a record on
which `parseNode` fails, whatever follows it. -/
theorem parseNodesBadAt (B : HNSWNode → List ℤ) :
    ∀ (nds : List HNSWNode) (i : ℕ) (tail : List ℤ),
      (∀ nd ∈ nds, WFNode nd) → i < nds.length →
      (∀ rest, parseNode (B (nds.getD i default) ++ rest) = none) →
      parseNodes nds.length
        (((List.range nds.length).map
          (fun j => if j = i then B (nds.getD j default)
            else serializeNode (nds.getD j default))).flatten ++ tail) = none := by
  intro nds
  induction nds with
  | nil => intro i tail _ hi; simp at hi
  | cons nd nds ih =>
    intro i tail hwf hi hB
    rw [List.length_cons, List.range_succ_eq_map, List.map_cons, List.map_map,
      List.flatten_cons]
    cases i with
    | zero =>
      show parseNodes (nds.length + 1) ((B nd ++ _) ++ tail) = none
      rw [List.append_assoc]
      simp only [parseNodes]
      have hB0 : ∀ rest, parseNode (B nd ++ rest) = none := hB
      rw [hB0]
    | succ i =>
      show parseNodes (nds.length + 1) ((serializeNode nd ++ _) ++ tail) = none
      rw [List.append_assoc]
      simp only [parseNodes]
      rw [parseNode_rt nd (hwf nd (by simp)) _]
      simp only []
      have hmap : (List.range nds.length).map
          ((fun j => if j = i + 1 then B ((nd :: nds).getD j default)
            else serializeNode ((nd :: nds).getD j default)) ∘ Nat.succ) =
          (List.range nds.length).map
          (fun j => if j = i then B (nds.getD j default)
            else serializeNode (nds.getD j default)) := by
        refine List.map_congr_left ?_
        intro j _
        simp only [Function.comp]
        by_cases hji : j = i
        · subst hji
          rw [if_pos rfl, if_pos (by omega)]
          rfl
        · rw [if_neg (by omega), if_neg hji]
          rfl
      rw [hmap, ih i tail (fun x hx => hwf x (by simp [hx])) (by simpa using hi)
        (by
          have hgd : (nd :: nds).getD (Nat.succ i) default = nds.getD i default := rfl
          rw [hgd] at hB
          exact hB)]

/-- `serialize_hnsw_graph g` with the repeated connection count of node
`i`, layer `l` replaced by `v`. -/
def serializeFlip (g : HNSWGraph) (i l : ℕ) (v : ℤ) : List ℤ :=
  g.node_count ::
    ((List.range g.node_count.toNat).map
      (fun j => if j = i then serializeNodeFlip (g.nodes.getD j default) l v
        else serializeNode (g.nodes.getD j default))).flatten

/-- `serialize_hnsw_graph g` with node `i`'s `top_layer` field replaced by
`v`. -/
def serializeNegTop (g : HNSWGraph) (i : ℕ) (v : ℤ) : List ℤ :=
  g.node_count ::
    ((List.range g.node_count.toNat).map
      (fun j => if j = i then serializeNodeNegTop (g.nodes.getD j default) v
        else serializeNode (g.nodes.getD j default))).flatten

theorem getD_mem {α : Type _} [Inhabited α] (l : List α) (i : ℕ)
    (h : i < l.length) : l.getD i default ∈ l := by
  rw [List.getD_eq_getElem _ _ h]
  exact List.getElem_mem _

theorem deserialize_flip (g : HNSWGraph) (h : WFGraph g) (i l : ℕ) (v : ℤ)
    (hi : i < g.nodes.length)
    (hl : l < (g.nodes.getD i default).layer_connections.length)
    (hv : v ≠ (((g.nodes.getD i default).layer_connections.getD l []).length : ℤ)) :
    deserialize_hnsw_graph (serializeFlip g i l v) = none := by
  obtain ⟨h0, hlen, hwf⟩ := h
  unfold serializeFlip deserialize_hnsw_graph
  rw [if_neg (by simp)]
  simp only [readInt]
  rw [if_neg (by omega)]
  have hbad := parseNodesBadAt (fun nd => serializeNodeFlip nd l v) g.nodes i []
    hwf hi
    (fun rest => parseNode_flip _ (hwf _ (getD_mem g.nodes i hi)) l v hl hv rest)
  rw [List.append_nil] at hbad
  simp only [] at hbad
  rw [show g.node_count.toNat = g.nodes.length from hlen.symm, hbad]

theorem deserialize_negTop (g : HNSWGraph) (h : WFGraph g) (i : ℕ) (v : ℤ)
    (hi : i < g.nodes.length) (hv : v < 0) :
    deserialize_hnsw_graph (serializeNegTop g i v) = none := by
  obtain ⟨h0, hlen, hwf⟩ := h
  unfold serializeNegTop deserialize_hnsw_graph
  rw [if_neg (by simp)]
  simp only [readInt]
  rw [if_neg (by omega)]
  have hbad := parseNodesBadAt (fun nd => serializeNodeNegTop nd v) g.nodes i []
    hwf hi
    (fun rest => by
      show parseNode (serializeNodeNegTop (g.nodes.getD i default) v ++ rest) = none
      unfold serializeNodeNegTop
      rw [List.cons_append]
      exact parseNode_neg v hv _)
  rw [List.append_nil] at hbad
  simp only [] at hbad
  rw [show g.node_count.toNat = g.nodes.length from hlen.symm, hbad]

theorem parseLayers_take (conns : List (List ℤ)) : ∀ (m : ℕ),
    m < ((conns.map (fun c => ((c.length : ℤ) :: c))).flatten).length →
    parseLayers (conns.map (fun c => (c.length : ℤ)))
      (((conns.map (fun c => ((c.length : ℤ) :: c))).flatten).take m) = none := by
  induction conns with
  | nil => intro m hm; simp at hm
  | cons c cs ih =>
    intro m hm
    simp only [List.map_cons, List.flatten_cons] at hm ⊢
    cases m with
    | zero =>
      rw [List.take_zero]
      rfl
    | succ m =>
      rw [List.cons_append, List.take_succ_cons]
      simp only [List.map_cons, parseLayers, readInt]
      rw [if_neg (by simp)]
      rcases Nat.lt_or_ge m c.length with hmc | hmc
      · rw [List.take_append_of_le_length (by omega)]
        have hsz : (((c.take m).length : ℤ)) < (c.length : ℤ) := by
          rw [List.length_take]
          push_cast
          omega
        rw [if_pos hsz]
      · obtain ⟨m2, rfl⟩ : ∃ m2, m = c.length + m2 := ⟨m - c.length, by omega⟩
        rw [List.take_append]
        have hsz : ¬ (((c ++ ((cs.map (fun c2 => ((c2.length : ℤ) :: c2))).flatten.take
            m2)).length : ℤ) < (c.length : ℤ)) := by
          rw [List.length_append]
          push_cast
          omega
        rw [if_neg hsz]
        have htoNat : ((c.length : ℤ)).toNat = c.length := Int.toNat_natCast _
        rw [htoNat, List.drop_left c _, ih m2 (by
          rw [List.cons_append, List.length_cons, List.length_append] at hm
          omega)]

theorem parseNode_take (node : HNSWNode) (h : WFNode node) :
    ∀ m, m < (serializeNode node).length →
      parseNode ((serializeNode node).take m) = none := by
  rw [serializeNode_eq node h]
  intro m hm
  cases m with
  | zero => rfl
  | succ m =>
    rw [List.take_succ_cons]
    simp only [parseNode, readInt]
    rw [if_neg (by have := h.1; omega)]
    have hcl : (node.layer_connections.map (fun c => (c.length : ℤ))).length =
        node.maximum_layer.toNat + 1 := by
      rw [List.length_map, h.2]
    rcases Nat.lt_or_ge m (node.layer_connections.map (fun c => (c.length : ℤ))).length
      with hmc | hmc
    · rw [List.take_append_of_le_length (by omega)]
      rw [← hcl, readInts_short _ _ (by rw [List.length_take]; omega)]
    · obtain ⟨m2, rfl⟩ : ∃ m2,
          m = (node.layer_connections.map (fun c => (c.length : ℤ))).length + m2 :=
        ⟨m - (node.layer_connections.map (fun c => (c.length : ℤ))).length, by omega⟩
      rw [List.take_append, ← hcl, readInts_append]
      simp only []
      rw [parseLayers_take node.layer_connections m2 (by
        rw [List.length_cons, List.length_append] at hm
        omega)]

theorem parseNodes_take (nds : List HNSWNode) (hwf : ∀ nd ∈ nds, WFNode nd) :
    ∀ m, m < ((nds.map serializeNode).flatten).length →
      parseNodes nds.length (((nds.map serializeNode).flatten).take m) = none := by
  induction nds with
  | nil => intro m hm; simp at hm
  | cons nd nds ih =>
    intro m hm
    rw [List.map_cons, List.flatten_cons] at hm ⊢
    rcases Nat.lt_or_ge m (serializeNode nd).length with hmc | hmc
    · rw [List.take_append_of_le_length (by omega), List.length_cons]
      simp only [parseNodes]
      rw [parseNode_take nd (hwf nd (by simp)) m hmc]
    · obtain ⟨m2, rfl⟩ : ∃ m2, m = (serializeNode nd).length + m2 :=
        ⟨m - (serializeNode nd).length, by omega⟩
      rw [List.take_append, List.length_cons]
      simp only [parseNodes]
      rw [parseNode_rt nd (hwf nd (by simp)) _]
      simp only []
      rw [ih (fun x hx => hwf x (by simp [hx])) m2 (by
        rw [List.length_append] at hm
        omega)]

/-- Truncating a serialized graph anywhere strictly before its end makes
deserialization fail: some field read would pass the buffer end. -/
theorem deserialize_take (g : HNSWGraph) (h : WFGraph g) :
    ∀ m, m < (serialize_hnsw_graph g).length →
      deserialize_hnsw_graph ((serialize_hnsw_graph g).take m) = none := by
  obtain ⟨h0, hlen, hwf⟩ := h
  unfold serialize_hnsw_graph
  have hmap : (List.range g.node_count.toNat).map
      (fun i => serializeNode (g.nodes.getD i default)) =
      g.nodes.map serializeNode := by
    rw [← hlen]
    exact range_map_getD g.nodes default serializeNode
  rw [hmap]
  intro m hm
  cases m with
  | zero => rfl
  | succ m =>
    rw [List.take_succ_cons]
    unfold deserialize_hnsw_graph
    rw [if_neg (by simp)]
    simp only [readInt]
    rw [if_neg (by omega)]
    rw [show g.node_count.toNat = g.nodes.length from hlen.symm]
    rw [parseNodes_take g.nodes hwf m (by
      rw [List.length_cons] at hm
      omega)]

/-! ### Brute-force `knn_search` as a sort (specification side for the
determinism law): sorting by ascending distance with ties broken by
ascending id is sorting by the lexicographic order on `(distance, id)`. -/

/-- Ascending distance, ties by ascending id. -/
def lexLe (a b : ℚ × ℤ) : Prop := a.1 < b.1 ∨ (a.1 = b.1 ∧ a.2 ≤ b.2)

instance : DecidableRel lexLe := fun a b =>
  inferInstanceAs (Decidable (a.1 < b.1 ∨ (a.1 = b.1 ∧ a.2 ≤ b.2)))

instance : IsTotal (ℚ × ℤ) lexLe := by
  constructor
  intro a b
  unfold lexLe
  rcases lt_trichotomy a.1 b.1 with h | h | h
  · exact Or.inl (Or.inl h)
  · rcases le_total a.2 b.2 with h2 | h2
    · exact Or.inl (Or.inr ⟨h, h2⟩)
    · exact Or.inr (Or.inr ⟨h.symm, h2⟩)
  · exact Or.inr (Or.inl h)

instance : IsTrans (ℚ × ℤ) lexLe := by
  constructor
  intro a b c hab hbc
  unfold lexLe at *
  rcases hab with h1 | ⟨h1, h1'⟩ <;> rcases hbc with h2 | ⟨h2, h2'⟩
  · exact Or.inl (lt_trans h1 h2)
  · exact Or.inl (h2 ▸ h1)
  · exact Or.inl (h1 ▸ h2)
  · exact Or.inr ⟨h1.trans h2, le_trans h1' h2'⟩

instance : IsAntisymm (ℚ × ℤ) lexLe := by
  constructor
  intro a b hab hba
  unfold lexLe at *
  rcases hab with h1 | ⟨h1, h1'⟩ <;> rcases hba with h2 | ⟨h2, h2'⟩
  · exact absurd h2 (lt_asymm h1)
  · rw [h2] at h1
    exact absurd h1 (lt_irrefl _)
  · rw [h1] at h2
    exact absurd h2 (lt_irrefl _)
  · exact Prod.ext h1 (le_antisymm h1' h2')

/-- The C shift-insert equals ordered insertion truncated back to the array
length, provided no stored entry ties `c`'s distance with an id at least
`c`'s (true during the scan: earlier ids are smaller). -/
theorem knnInsert_eq_orderedInsert (c : ℚ × ℤ) :
    ∀ (s : List (ℚ × ℤ)), (∀ x ∈ s, x.1 = c.1 → x.2 < c.2) →
      knnInsert c s = (List.orderedInsert lexLe c s).take s.length := by
  intro s
  induction s with
  | nil => intro _; rfl
  | cons x xs ih =>
    intro h
    by_cases hc : c.1 < x.1
    · rw [show knnInsert c (x :: xs) = c :: (x :: xs).dropLast from by
        simp [knnInsert, hc]]
      rw [List.orderedInsert, if_pos (show lexLe c x from Or.inl hc),
        List.length_cons, List.take_succ_cons, List.dropLast_eq_take]
      simp
    · have hnot : ¬ lexLe c x := by
        intro hcx
        rcases hcx with h1 | ⟨h1, h1'⟩
        · exact hc h1
        · exact absurd (h x (by simp) h1.symm) (by omega)
      rw [show knnInsert c (x :: xs) = x :: knnInsert c xs from by
        simp [knnInsert, hc]]
      rw [List.orderedInsert, if_neg hnot, List.length_cons,
        List.take_succ_cons, ih (fun y hy => h y (by simp [hy]))]

/-- Inserting into a truncated list and truncating again equals truncating
the insertion into the full list. -/
theorem take_orderedInsert_take (c : ℚ × ℤ) :
    ∀ (l : List (ℚ × ℤ)) (k : ℕ),
      (List.orderedInsert lexLe c (l.take k)).take k =
        (List.orderedInsert lexLe c l).take k := by
  intro l
  induction l with
  | nil => intro k; simp
  | cons x xs ih =>
    intro k
    cases k with
    | zero => rfl
    | succ k =>
      rw [List.take_succ_cons, List.orderedInsert, List.orderedInsert]
      by_cases hcx : lexLe c x
      · rw [if_pos hcx, if_pos hcx, List.take_succ_cons, List.take_succ_cons]
        cases k with
        | zero => rfl
        | succ k =>
          rw [List.take_succ_cons, List.take_succ_cons, List.take_take]
          simp [Nat.min_def]
      · rw [if_neg hcx, if_neg hcx, List.take_succ_cons, List.take_succ_cons, ih k]

/-- Ordered insertion into `A ++ B` stays inside `A` when `c` precedes every
element of `B`. -/
theorem orderedInsert_append (c : ℚ × ℤ) :
    ∀ (A B : List (ℚ × ℤ)), (∀ b ∈ B, lexLe c b) →
      List.orderedInsert lexLe c (A ++ B) = List.orderedInsert lexLe c A ++ B := by
  intro A
  induction A with
  | nil =>
    intro B hB
    cases B with
    | nil => rfl
    | cons b bs =>
      rw [List.nil_append]
      show List.orderedInsert lexLe c (b :: bs) = [c] ++ b :: bs
      rw [show List.orderedInsert lexLe c (b :: bs) =
        if lexLe c b then c :: b :: bs
        else b :: List.orderedInsert lexLe c bs from rfl,
        if_pos (hB b (by simp))]
      rfl
  | cons a as ih =>
    intro B hB
    rw [List.cons_append, List.orderedInsert, List.orderedInsert]
    by_cases hca : lexLe c a
    · rw [if_pos hca, if_pos hca]
      simp
    · rw [if_neg hca, if_neg hca, ih B hB, List.cons_append]

/-- Ordered insertion into the sorted list is sorting with the element
appended. -/
theorem orderedInsert_insertionSort (c : ℚ × ℤ) (l : List (ℚ × ℤ)) :
    List.orderedInsert lexLe c (List.insertionSort lexLe l) =
      List.insertionSort lexLe (l ++ [c]) := by
  refine List.eq_of_perm_of_sorted (r := lexLe) ?_ ?_ ?_
  · refine ((List.perm_orderedInsert _ _ _).trans ?_).trans
      (List.perm_insertionSort lexLe (l ++ [c])).symm
    refine ((List.perm_insertionSort lexLe l).cons c).trans ?_
    exact (List.perm_append_singleton c l).symm
  · exact List.Sorted.orderedInsert c _ (List.sorted_insertionSort lexLe l)
  · exact List.sorted_insertionSort lexLe (l ++ [c])

/-- When the new distance is not below any stored distance, the C insertion
scan is a no-op. -/
theorem knnInsert_noop (c : ℚ × ℤ) :
    ∀ (s : List (ℚ × ℤ)), (∀ x ∈ s, ¬ c.1 < x.1) → knnInsert c s = s := by
  intro s
  induction s with
  | nil => intro _; rfl
  | cons x xs ih =>
    intro h
    rw [show knnInsert c (x :: xs) = if c.1 < x.1 then c :: (x :: xs).dropLast
        else x :: knnInsert c xs from rfl,
      if_neg (h x (by simp)), ih (fun y hy => h y (by simp [hy]))]

/-- The sentinel-filled initial array of brute-force `knn_search`
(vector_search.c:500-503). -/
def knnPad (k : ℕ) : List (ℚ × ℤ) := List.replicate k (FLT_MAX, -1)

/-- The ids that can ever enter the result array: those whose distance is
strictly below the `FLT_MAX` sentinel, paired with their distances. -/
def knnFiltered (dist : ℕ → ℚ) (n : ℕ) : List (ℚ × ℤ) :=
  (List.range n).filterMap
    (fun i => if dist i < FLT_MAX then some (dist i, (i : ℤ)) else none)

theorem knnFold (dist : ℕ → ℚ) (k : ℕ) : ∀ (n : ℕ),
    (List.range n).foldl (fun st i => knnInsert (dist i, (i : ℤ)) st) (knnPad k) =
      (List.insertionSort lexLe (knnFiltered dist n) ++ knnPad k).take k := by
  intro n
  induction n with
  | zero =>
    simp [knnFiltered, knnPad, List.insertionSort, List.take_replicate]
  | succ n ihn =>
    rw [List.range_succ, List.foldl_append, List.foldl_cons, List.foldl_nil, ihn]
    by_cases hd : dist n < FLT_MAX
    · have hmem : ∀ x ∈ (List.insertionSort lexLe (knnFiltered dist n) ++
          knnPad k).take k, x.1 = (dist n, (n : ℤ)).1 → x.2 < (dist n, (n : ℤ)).2 := by
        intro x hx h1
        have hx2 := List.mem_of_mem_take hx
        rw [List.mem_append] at hx2
        rcases hx2 with hx2 | hx2
        · have hx3 := (List.perm_insertionSort lexLe (knnFiltered dist n)).mem_iff.mp hx2
          rw [knnFiltered, List.mem_filterMap] at hx3
          obtain ⟨i, hi, hif⟩ := hx3
          rw [List.mem_range] at hi
          split_ifs at hif with hcond
          rw [Option.some_inj] at hif
          rw [← hif]
          show (i : ℤ) < (n : ℤ)
          exact_mod_cast hi
        · rw [knnPad] at hx2
          rw [List.eq_of_mem_replicate hx2] at h1
          exact absurd h1.symm (ne_of_lt hd)
      have hlen : ((List.insertionSort lexLe (knnFiltered dist n) ++
          knnPad k).take k).length = k := by
        rw [List.length_take, List.length_append, knnPad, List.length_replicate]
        omega
      have hpad : ∀ b ∈ knnPad k, lexLe (dist n, (n : ℤ)) b := by
        intro b hb
        rw [knnPad] at hb
        rw [List.eq_of_mem_replicate hb]
        exact Or.inl hd
      rw [knnInsert_eq_orderedInsert _ _ hmem, hlen, take_orderedInsert_take,
        orderedInsert_append _ _ _ hpad, orderedInsert_insertionSort]
      have hfil : knnFiltered dist (n + 1) =
          knnFiltered dist n ++ [(dist n, (n : ℤ))] := by
        rw [knnFiltered, knnFiltered, List.range_succ, List.filterMap_append]
        simp [hd]
      rw [hfil]
    · have hnoop : ∀ x ∈ (List.insertionSort lexLe (knnFiltered dist n) ++
          knnPad k).take k, ¬ (dist n, (n : ℤ)).1 < x.1 := by
        intro x hx
        have hx2 := List.mem_of_mem_take hx
        rw [List.mem_append] at hx2
        rcases hx2 with hx2 | hx2
        · have hx3 := (List.perm_insertionSort lexLe (knnFiltered dist n)).mem_iff.mp hx2
          rw [knnFiltered, List.mem_filterMap] at hx3
          obtain ⟨i, hi, hif⟩ := hx3
          split_ifs at hif with hcond
          rw [Option.some_inj] at hif
          rw [← hif]
          exact not_lt.mpr (le_of_lt (lt_of_lt_of_le hcond (not_lt.mp hd)))
        · rw [knnPad] at hx2
          rw [List.eq_of_mem_replicate hx2]
          exact hd
      rw [knnInsert_noop _ _ hnoop]
      have hfil : knnFiltered dist (n + 1) = knnFiltered dist n := by
        rw [knnFiltered, knnFiltered, List.range_succ, List.filterMap_append]
        simp [hd]
      rw [hfil]

/-- Brute-force `knn_search` computes the take-`k` of the
lexicographically sorted `(distance, id)` pairs below the sentinel, padded
with `(FLT_MAX, -1)`. -/
theorem knn_search_brute (index : VectorIndex) (query : Vector) (k : ℤ)
    (hb : index.use_hnsw_optimization = false) :
    knn_search index query k = some
      (((List.insertionSort lexLe (knnFiltered
          (fun i => calculate_euclidean_distance query (index.vectors.getD i default))
          index.len.toNat) ++ knnPad k.toNat).take k.toNat).map Prod.snd) := by
  unfold knn_search
  rw [if_neg (by simp [hb])]
  simp only []
  have hfold := knnFold
    (fun i => calculate_euclidean_distance query (index.vectors.getD i default))
    k.toNat index.len.toNat
  simp only [knnPad] at hfold
  rw [hfold]
  rw [knnPad]

/-- All distances `FLT_MAX` (dimension mismatch) keep the brute-force scan
a no-op, so the sentinel array survives. -/
theorem knn_search_all_mismatch (index : VectorIndex) (query : Vector) (k : ℤ)
    (hb : index.use_hnsw_optimization = false)
    (hdim : ∀ i, i < index.len.toNat →
      query.len ≠ (index.vectors.getD i default).len) :
    knn_search index query k = some (List.replicate k.toNat (-1)) := by
  rw [knn_search_brute index query k hb]
  have hfil : knnFiltered
      (fun i => calculate_euclidean_distance query (index.vectors.getD i default))
      index.len.toNat = [] := by
    rw [knnFiltered, List.filterMap_eq_nil]
    intro i hi
    rw [List.mem_range] at hi
    have hmax : calculate_euclidean_distance query (index.vectors.getD i default) =
        FLT_MAX := by
      unfold calculate_euclidean_distance
      rw [if_pos (hdim i hi)]
    rw [if_neg (by rw [hmax]; exact lt_irrefl _)]
  rw [hfil]
  show some ((((List.insertionSort lexLe []) ++ knnPad k.toNat).take k.toNat).map
    Prod.snd) = _
  rw [show List.insertionSort lexLe [] = [] from rfl, List.nil_append, knnPad,
    List.take_replicate, Nat.min_self, List.map_replicate]

/-! ### Accessors and checkers used by the claims -/

/-- The top layer of node `i`. -/
def topLayerAt (g : HNSWGraph) (i : ℕ) : ℤ :=
  (g.nodes.getD i default).maximum_layer

/-- The layer-`l` neighbor list of node `i`. -/
def neighborsAt (g : HNSWGraph) (i l : ℕ) : List ℤ :=
  (g.nodes.getD i default).layer_connections.getD l []

/-- Undirected layer-0 adjacency between nodes `a` and `b`. -/
def layer0Adj (g : HNSWGraph) (a b : ℕ) : Prop :=
  (b : ℤ) ∈ neighborsAt g a 0 ∨ (a : ℤ) ∈ neighborsAt g b 0

/-- Weak connectivity of the layer-0 graph: every node reaches every other
through undirected layer-0 edges. -/
def weaklyConnectedL0 (g : HNSWGraph) : Prop :=
  ∀ a b : ℕ, a < g.nodes.length → b < g.nodes.length →
    Relation.ReflTransGen (layer0Adj g) a b

theorem reflTransGen_eq_of_empty {α : Type _} {r : α → α → Prop}
    (h : ∀ a b, ¬ r a b) {x y : α} (hxy : Relation.ReflTransGen r x y) :
    x = y := by
  induction hxy with
  | refl => rfl
  | tail hxz hzy ih => exact absurd hzy (h _ _)

/-- Decidable bidirectional-closure check: every neighbor `m` of `n` at
layer `l ≤ n.top_layer` satisfies `l ≤ m.top_layer` and lists `n` back. -/
def bidirClosureCheck (g : HNSWGraph) : Bool :=
  (List.range g.nodes.length).all (fun n =>
    (List.range ((g.nodes.getD n default).maximum_layer.toNat + 1)).all (fun l =>
      (neighborsAt g n l).all (fun m =>
        decide ((l : ℤ) ≤ (g.nodes.getD m.toNat default).maximum_layer) &&
        decide ((n : ℤ) ∈ neighborsAt g m.toNat l))))

theorem getD_map_stripNode (l : List HNSWNode) (i : ℕ) :
    (l.map stripNode).getD i default = stripNode (l.getD i default) := by
  rcases Nat.lt_or_ge i l.length with h | h
  · rw [List.getD_eq_getElem _ _ (by simpa using h), List.getD_eq_getElem _ _ h,
      List.getElem_map]
  · rw [List.getD_eq_default _ _ (by simpa using h), List.getD_eq_default _ _ h]
    rfl

/-! ### The claims

Concrete instances appearing in counterexamples and witnesses, then one
theorem per claim.  `Rat`'s arithmetic is `@[irreducible]` in the library;
the kernel evaluation of the concrete instances below needs it reducible. -/

section RatKernel

attribute [local semireducible] Rat.mul Rat.add Rat.sub Rat.inv

set_option maxRecDepth 400000

/-- A two-node graph whose nodes are mutual layer-0 neighbors; node 1 is at
distance 0 from the query `[0]` and node 0 at distance 10. -/
def gC2 : HNSWGraph :=
  ⟨[⟨0, 0, [[1]]⟩, ⟨1, 0, [[0]]⟩], [⟨[10], 1⟩, ⟨[0], 1⟩], 2, 0, 0, 2, 4, 1 / 2, 4⟩

/-- A brute-force index holding a single one-dimensional vector whose
coordinate is `FLT_MAX`, at Euclidean distance `FLT_MAX` from `[0]`. -/
def idxC6 : VectorIndex := ⟨[⟨[FLT_MAX], 1⟩], 1, none, false⟩

/-- A well-formed two-node graph used to instantiate the serialization
claims: node 0 lives at layer 0 with neighbor 1, node 1 at layers 0-1 with
neighbor 0 at layer 0. -/
def gW : HNSWGraph :=
  ⟨[⟨0, 0, [[1]]⟩, ⟨7, 1, [[0], []]⟩], [], 2, 0, 1, 16, 32, 1 / 2, 32⟩

/-- C1: the spec's layer-0 weak-connectivity invariant fails.  On two
vectors the built graph has two nodes but no layer-0 edge at all (the
connection-selection loop of `build_hnsw_graph` only runs once the beam
loop has emptied `layer_candidates`), so node 0 cannot reach node 1. -/
theorem C1_layer0_not_connected :
    (build_hnsw_graph (fun _ => 0) [⟨[0], 1⟩, ⟨[1], 1⟩] 2 16 32 (1 / 2)
      32).nodes.length = 2 ∧
    ¬ weaklyConnectedL0 (build_hnsw_graph (fun _ => 0) [⟨[0], 1⟩, ⟨[1], 1⟩] 2 16 32
      (1 / 2) 32) := by
  refine ⟨by decide, fun h => ?_⟩
  have hadj : ∀ a b : ℕ,
      ¬ layer0Adj (build_hnsw_graph (fun _ => 0) [⟨[0], 1⟩, ⟨[1], 1⟩] 2 16 32 (1 / 2)
        32) a b := by
    intro a b hab
    have hconns : ∀ c : ℕ,
        neighborsAt (build_hnsw_graph (fun _ => 0) [⟨[0], 1⟩, ⟨[1], 1⟩] 2 16 32 (1 / 2)
          32) c 0 = [] :=
      fun c => build_hnsw_graph_conns_empty (fun _ => 0) [⟨[0], 1⟩, ⟨[1], 1⟩] 2 16 32
        (1 / 2) 32 c 0
    rcases hab with hm | hm
    · rw [hconns a] at hm
      exact absurd hm (List.not_mem_nil _)
    · rw [hconns b] at hm
      exact absurd hm (List.not_mem_nil _)
  have h01 := reflTransGen_eq_of_empty hadj (h 0 1 (by decide) (by decide))
  exact absurd h01 (by decide)

/-- C2 (corrected): `search_layer` returns its visited nodes ordered by
ascending distance to the query, but their number is only bounded by
`2 * ef` (the capacity of its visited max-heap), not by `ef`. -/
theorem C2_search_layer_bound_sorted (g : HNSWGraph) (query : Vector)
    (entry_point layer w : ℤ) (hw : 1 ≤ w) :
    ((search_layer g query entry_point layer w).length : ℤ) ≤ 2 * w ∧
    List.Pairwise (fun a b =>
      calculate_euclidean_distance query (g.original_vectors.getD a.toNat default) ≤
        calculate_euclidean_distance query (g.original_vectors.getD b.toNat default))
      (search_layer g query entry_point layer w) :=
  search_layer_length_sorted g query entry_point layer w hw

theorem C2_search_layer_bound_sorted_witness :
    (1 : ℤ) ≤ 1 ∧
    (((search_layer gC2 ⟨[0], 1⟩ 0 0 1).length : ℤ) ≤ 2 * 1 ∧
     List.Pairwise (fun a b =>
       calculate_euclidean_distance ⟨[0], 1⟩ (gC2.original_vectors.getD a.toNat default) ≤
         calculate_euclidean_distance ⟨[0], 1⟩ (gC2.original_vectors.getD b.toNat default))
       (search_layer gC2 ⟨[0], 1⟩ 0 0 1)) :=
  ⟨by decide, C2_search_layer_bound_sorted gC2 ⟨[0], 1⟩ 0 0 1 (by decide)⟩

/-- C2, counterexample to the claimed bound: with `ef = 1` and a valid
entry point, `search_layer` returns two ids. -/
theorem C2_search_layer_over_ef :
    search_layer gC2 ⟨[0], 1⟩ 0 0 1 = [1, 0] ∧
    ¬ ((search_layer gC2 ⟨[0], 1⟩ 0 0 1).length ≤ 1) := by
  decide

/-- C3: `build_hnsw_graph` returns only after the insertion loop has run
for every node id `1..N-1`: the build is the fold of one insertion step
over exactly that id list. -/
theorem C3_insertion_loop_all_ids (levels : ℕ → ℕ) (vectors : List Vector)
    (vector_count mc mc0 : ℤ) (lf : ℚ) (csw : ℤ) (hN : 2 ≤ vector_count) :
    build_hnsw_graph levels vectors vector_count mc mc0 lf csw =
      (List.range' 1 (vector_count.toNat - 1)).foldl insertNode
        (buildInitGraph levels vectors vector_count mc mc0 lf csw) := by
  unfold build_hnsw_graph
  exact insertLoop_eq_foldl vector_count.toNat 1 _ vector_count.toNat (by omega)

theorem C3_insertion_loop_all_ids_witness :
    (2 : ℤ) ≤ 2 ∧
    build_hnsw_graph (fun _ => 0) [⟨[0], 1⟩, ⟨[1], 1⟩] 2 16 32 (1 / 2) 32 =
      (List.range' 1 ((2 : ℤ).toNat - 1)).foldl insertNode
        (buildInitGraph (fun _ => 0) [⟨[0], 1⟩, ⟨[1], 1⟩] 2 16 32 (1 / 2) 32) :=
  ⟨by decide,
   C3_insertion_loop_all_ids (fun _ => 0) [⟨[0], 1⟩, ⟨[1], 1⟩] 2 16 32 (1 / 2) 32
     (by decide)⟩

/-- C4: round trip.  Deserializing a serialized well-formed graph succeeds
and reproduces the node count, every node's top layer, and every per-layer
neighbor sequence. -/
theorem C4_serialize_roundtrip (g : HNSWGraph) (h : WFGraph g) :
    ∃ g2, deserialize_hnsw_graph (serialize_hnsw_graph g) = some g2 ∧
      g2.node_count = g.node_count ∧
      (∀ i, topLayerAt g2 i = topLayerAt g i) ∧
      (∀ i l, neighborsAt g2 i l = neighborsAt g i l) := by
  refine ⟨⟨g.nodes.map stripNode, [], g.node_count, 0, 0, 0, 0, 0, 0⟩,
    deserialize_serialize g h, rfl, ?_, ?_⟩
  · intro i
    show ((g.nodes.map stripNode).getD i default).maximum_layer = _
    rw [getD_map_stripNode]
    rfl
  · intro i l
    show ((g.nodes.map stripNode).getD i default).layer_connections.getD l [] = _
    rw [getD_map_stripNode]
    rfl

theorem C4_serialize_roundtrip_witness :
    WFGraph gW ∧
    ∃ g2, deserialize_hnsw_graph (serialize_hnsw_graph gW) = some g2 ∧
      g2.node_count = gW.node_count ∧
      (∀ i, topLayerAt g2 i = topLayerAt gW i) ∧
      (∀ i l, neighborsAt g2 i l = neighborsAt gW i l) :=
  ⟨by simp only [WFGraph, WFNode]; decide,
   C4_serialize_roundtrip gW (by simp only [WFGraph, WFNode]; decide)⟩

/-- C5: deserializer strictness.  Flipping the redundant per-layer count of
any layer of a serialized well-formed graph makes deserialization fail;
truncating the buffer anywhere makes it fail; a negative `top_layer` field
makes it fail. -/
theorem C5_deserialize_strict :
    (∀ (g : HNSWGraph) (i l : ℕ) (v : ℤ), WFGraph g → i < g.nodes.length →
      l < (g.nodes.getD i default).layer_connections.length →
      v ≠ (((g.nodes.getD i default).layer_connections.getD l []).length : ℤ) →
      deserialize_hnsw_graph (serializeFlip g i l v) = none) ∧
    (∀ (g : HNSWGraph) (m : ℕ), WFGraph g → m < (serialize_hnsw_graph g).length →
      deserialize_hnsw_graph ((serialize_hnsw_graph g).take m) = none) ∧
    (∀ (g : HNSWGraph) (i : ℕ) (v : ℤ), WFGraph g → i < g.nodes.length → v < 0 →
      deserialize_hnsw_graph (serializeNegTop g i v) = none) :=
  ⟨fun g i l v h hi hl hv => deserialize_flip g h i l v hi hl hv,
   fun g m h hm => deserialize_take g h m hm,
   fun g i v h hi hv => deserialize_negTop g h i v hi hv⟩

theorem C5_deserialize_strict_witness :
    deserialize_hnsw_graph (serializeFlip gW 0 0 5) = none ∧
    deserialize_hnsw_graph ((serialize_hnsw_graph gW).take 3) = none ∧
    deserialize_hnsw_graph (serializeNegTop gW 0 (-1)) = none :=
  ⟨C5_deserialize_strict.1 gW 0 0 5 (by simp only [WFGraph, WFNode]; decide)
     (by decide) (by decide) (by decide),
   C5_deserialize_strict.2.1 gW 3 (by simp only [WFGraph, WFNode]; decide) (by decide),
   C5_deserialize_strict.2.2 gW 0 (-1) (by simp only [WFGraph, WFNode]; decide)
     (by decide) (by decide)⟩

/-- C6 (corrected): with `use_hnsw=false`, `knn_search` returns exactly the
first `k` entries of: the stored ids whose distance to the query is
strictly below `FLT_MAX`, sorted by ascending distance with ties broken by
ascending id, padded with `-1` sentinels.  Ids at distance `FLT_MAX` or
more are dropped even when `N ≥ k`, so sentinels are not confined to the
`N < k` case. -/
theorem C6_brute_force_result (vectors : List Vector) (len : ℤ)
    (hg : Option HNSWGraph) (query : Vector) (k : ℤ) :
    knn_search ⟨vectors, len, hg, false⟩ query k = some
      (((List.insertionSort lexLe (knnFiltered
          (fun i => calculate_euclidean_distance query (vectors.getD i default))
          len.toNat) ++ knnPad k.toNat).take k.toNat).map Prod.snd) :=
  knn_search_brute ⟨vectors, len, hg, false⟩ query k rfl

/-- C6, counterexample: one stored vector of matching dimension at distance
`FLT_MAX` and `k = N = 1` still yields the `-1` sentinel, though the claim
allows sentinels only when `N < k`. -/
theorem C6_sentinel_without_underfill :
    knn_search idxC6 ⟨[0], 1⟩ 1 = some [-1] ∧ ¬ (idxC6.len < 1) ∧
    (⟨[0], 1⟩ : Vector).len = (idxC6.vectors.getD 0 default).len := by
  decide

/-- C7 (corrected): only `brute_force_knn_search` validates its arguments
(`NULL` exactly for a null vector array, `n ≤ 0`, a null query, `k ≤ 0` or
a null `out_count`, vector_search.c:528); `knn_search` without HNSW returns
a non-null buffer for every argument, and `hnsw_knn_search` returns `NULL`
exactly when the index has no HNSW graph, regardless of `k`. -/
theorem C7_argument_validation :
    (∀ (vectors : Option (List Vector)) (len : ℤ) (query : Option Vector)
        (k : ℤ) (t : ℚ) (oc : Option Unit),
      brute_force_knn_search vectors len query k t oc = none ↔
        (vectors = none ∨ len ≤ 0 ∨ query = none ∨ k ≤ 0 ∨ oc = none)) ∧
    (∀ (vectors : List Vector) (len : ℤ) (hg : Option HNSWGraph)
        (query : Vector) (k : ℤ),
      (knn_search ⟨vectors, len, hg, false⟩ query k).isSome = true) ∧
    (∀ (index : VectorIndex) (query : Vector) (k : ℤ)
        (config : Option SearchConfig),
      hnsw_knn_search index query k config = none ↔ index.hnsw_graph = none) := by
  refine ⟨?_, ?_, ?_⟩
  · intro vectors len query k t oc
    match vectors, query, oc with
    | none, none, none => exact ⟨fun _ => Or.inl rfl, fun _ => rfl⟩
    | none, none, some u => exact ⟨fun _ => Or.inl rfl, fun _ => rfl⟩
    | none, some q, none => exact ⟨fun _ => Or.inl rfl, fun _ => rfl⟩
    | none, some q, some u => exact ⟨fun _ => Or.inl rfl, fun _ => rfl⟩
    | some vs, none, none =>
      exact ⟨fun _ => Or.inr (Or.inr (Or.inl rfl)), fun _ => rfl⟩
    | some vs, none, some u =>
      exact ⟨fun _ => Or.inr (Or.inr (Or.inl rfl)), fun _ => rfl⟩
    | some vs, some q, none =>
      exact ⟨fun _ => Or.inr (Or.inr (Or.inr (Or.inr rfl))), fun _ => rfl⟩
    | some vs, some q, some u =>
      simp only [brute_force_knn_search]
      split_ifs with h
      · exact ⟨fun _ => by tauto, fun _ => rfl⟩
      · constructor
        · intro hc
          exact absurd hc (by simp)
        · intro hc
          rcases hc with h1 | h1 | h1 | h1 | h1
          · exact absurd h1 (by simp)
          · exact absurd (Or.inl h1) h
          · exact absurd h1 (by simp)
          · exact absurd (Or.inr h1) h
          · exact absurd h1 (by simp)
  · intro vectors len hg query k
    rw [knn_search_brute ⟨vectors, len, hg, false⟩ query k rfl]
    rfl
  · intro index query k config
    cases hg : index.hnsw_graph with
    | none => simp [hnsw_knn_search, hg]
    | some graph => simp [hnsw_knn_search, hg]

/-- C7, counterexample: `knn_search` with `k = 0` and an empty index
(`n = 0`) returns a non-null (empty) buffer instead of failing. -/
theorem C7_knn_search_no_validation :
    knn_search ⟨[], 0, none, false⟩ ⟨[], 1⟩ 0 = some [] := by
  decide

/-- C8: a dimension mismatch makes `calculate_euclidean_distance` return
`FLT_MAX`, and a query whose dimension differs from every stored vector's
leaves the brute-force result all `-1` sentinels (a `FLT_MAX` distance is
never strictly below the initial `FLT_MAX` entries). -/
theorem C8_dimension_mismatch :
    (∀ a b : Vector, a.len ≠ b.len → calculate_euclidean_distance a b = FLT_MAX) ∧
    (∀ (vectors : List Vector) (len : ℤ) (hg : Option HNSWGraph)
        (query : Vector) (k : ℤ),
      (∀ i, i < len.toNat → query.len ≠ (vectors.getD i default).len) →
      knn_search ⟨vectors, len, hg, false⟩ query k =
        some (List.replicate k.toNat (-1))) := by
  constructor
  · intro a b hab
    unfold calculate_euclidean_distance
    rw [if_pos hab]
  · intro vectors len hg query k hdim
    exact knn_search_all_mismatch ⟨vectors, len, hg, false⟩ query k rfl hdim

theorem C8_dimension_mismatch_witness :
    calculate_euclidean_distance ⟨[0, 0, 0, 0], 4⟩ ⟨[0, 0, 0, 0, 0], 5⟩ = FLT_MAX ∧
    knn_search ⟨[⟨[0, 0, 0, 0, 0], 5⟩], 1, none, false⟩ ⟨[0, 0, 0, 0], 4⟩ 2 =
      some (List.replicate (2 : ℤ).toNat (-1)) :=
  ⟨C8_dimension_mismatch.1 ⟨[0, 0, 0, 0], 4⟩ ⟨[0, 0, 0, 0, 0], 5⟩ (by decide),
   C8_dimension_mismatch.2 [⟨[0, 0, 0, 0, 0], 5⟩] 1 none ⟨[0, 0, 0, 0], 4⟩ 2
     (by decide)⟩

/-- C9: bidirectional closure after build.  Every neighbor `m` of a node
`n` at a layer `l ≤ n`'s top layer satisfies `l ≤ m`'s top layer and lists
`n` back; the built graph has no neighbor at all (see C1), so the check
holds for every build. -/
theorem C9_bidirectional_closure (levels : ℕ → ℕ) (vectors : List Vector)
    (vector_count mc mc0 : ℤ) (lf : ℚ) (csw : ℤ) (hN : 2 ≤ vector_count) :
    bidirClosureCheck
      (build_hnsw_graph levels vectors vector_count mc mc0 lf csw) = true := by
  have hconns : ∀ (a b : ℕ),
      neighborsAt (build_hnsw_graph levels vectors vector_count mc mc0 lf csw) a b = [] :=
    fun a b => build_hnsw_graph_conns_empty levels vectors vector_count mc mc0 lf csw a b
  unfold bidirClosureCheck
  refine List.all_eq_true.mpr fun n hn => List.all_eq_true.mpr fun l hl => ?_
  rw [hconns]
  rfl

theorem C9_bidirectional_closure_witness :
    bidirClosureCheck
      (build_hnsw_graph (fun _ => 0) [⟨[0], 1⟩, ⟨[1], 1⟩] 2 16 32 (1 / 2) 32) = true :=
  C9_bidirectional_closure (fun _ => 0) [⟨[0], 1⟩, ⟨[1], 1⟩] 2 16 32 (1 / 2) 32
    (by decide)

/-- C10: the deserializer accepts out-of-range neighbor ids.  The buffer
`[1, 0, 1, 1, 99]` (one node, top layer 0, one layer-0 connection, id 99)
is structurally well formed, and deserialization returns a graph whose node
0 lists neighbor 99 although the graph has a single node. -/
theorem C10_deserialize_accepts_bad_ids :
    deserialize_hnsw_graph [1, 0, 1, 1, 99] =
      some ⟨[⟨0, 0, [[99]]⟩], [], 1, 0, 0, 0, 0, 0, 0⟩ ∧
    (99 : ℤ) ∈ neighborsAt ⟨[⟨0, 0, [[99]]⟩], [], 1, 0, 0, 0, 0, 0, 0⟩ 0 0 ∧
    ¬ ((99 : ℤ) < 1) := by
  decide

end RatKernel
